import Mathlib

/-!
Verification of the concurrent download manager of the
`dorman-lakely-cartography` FoundryVTT module, together with the
percent-encoding path-remap lookup of its download dialog.

The manager (`ConcurrentDownloadManager`, `src/services/...`) is a
cooperative single-threaded worker pool: `process` builds a queue of
`DownloadQueueItem`s, spawns `min(concurrency, queue.length)` workers, each
worker repeatedly shifts the next item off the shared queue and runs
`downloadFile` on it, which suspends at each collaborator call
(`fileExists`, `downloadFile`, `uploadFile`).  We embed this as a small-step
state machine: a worker is a continuation (`WorkerState`) parked at one of
the three suspension points, an execution is a list of scheduler actions
(resume worker `i`, or an external `abort()` call), and each action runs the
resumed code atomically up to the next suspension point — exactly the
atomicity the JavaScript event loop guarantees.  Collaborators are modelled
as pure functions of their arguments (blobs are opaque `Nat` tokens);
callback invocations and collaborator calls are recorded in an event trace
(each collaborator event also carries the path of the file it was issued
for, which is ghost information used only by the specification).
-/

set_option autoImplicit false

namespace DLC

/-- Mirrors the `DownloadStatus` enum of `src/types/module`. -/
inductive DownloadStatus
  | pending
  | downloading
  | processing
  | completed
  | error
deriving DecidableEq

/-- Mirrors `DLCFile` (the fields the download manager reads: `path` and
`size`; `type` and the optional name fields are never read by the manager). -/
structure DLCFile where
  path : String
  size : Nat
deriving DecidableEq

/-- Mirrors `DownloadQueueItem` of `src/types/module`. -/
structure DownloadQueueItem where
  file : DLCFile
  remappedPath : String
  status : DownloadStatus
  progress : Nat
  error : Option String
deriving DecidableEq

/-- Mirrors the `DownloadResult` interface of the manager. -/
structure DownloadResult where
  file : DLCFile
  status : DownloadStatus
  error : Option String
deriving DecidableEq

/-- Mirrors the `DownloadProgress` interface of the manager. -/
structure DownloadProgress where
  totalFiles : Nat
  completedFiles : Nat
  failedFiles : Nat
  currentFile : Option String
  bytesDownloaded : Nat
  totalBytes : Nat
deriving DecidableEq

/-- The two injected collaborators, reduced to the operations the manager
invokes: `FileUploadService.fileExists` (which never throws — its own
`catch` returns `false`), `APIService.downloadFile` for the fixed `mapId` of
the run, and `FileUploadService.uploadFile`.  Blobs are opaque `Nat`
tokens.  Failures are the thrown error's `message`. -/
structure Collaborators where
  fileExists : String → Bool
  downloadFile : String → Except String Nat
  uploadFile : Nat → String → Except String Unit

/-- Every observable action of the manager: collaborator invocations and
callback invocations, in program order.  The `forFile` argument of a
collaborator event is the `file.path` of the queue item on whose behalf the
call was made; it is ghost instrumentation (the collaborator itself receives
only the remaining arguments). -/
inductive DMEvent
  | fileExistsCall (forFile : String) (destPath : String)
  | apiDownloadCall (forFile : String) (path : String)
  | uploadFileCall (forFile : String) (destPath : String)
  | onProgress (p : DownloadProgress)
  | onFileComplete (path : String) (status : DownloadStatus)
  | onComplete (results : List DownloadResult)
deriving DecidableEq

/-- A worker continuation: `atLoop` is the top of the `while` loop of
`worker`; the three `await…` states are the suspension points inside
`downloadFile`, holding the claimed item (and, past the fetch, the blob). -/
inductive WorkerState
  | atLoop
  | awaitExists (item : DownloadQueueItem)
  | awaitFetch (item : DownloadQueueItem)
  | awaitUpload (item : DownloadQueueItem) (blob : Nat)
  | done
deriving DecidableEq

/-- The manager's mutable fields (`queue`, `results`, `aborted`) plus the
worker continuations and the recorded event trace. -/
structure MState where
  queue : List DownloadQueueItem
  results : List DownloadResult
  aborted : Bool
  workers : List WorkerState
  events : List DMEvent
deriving DecidableEq

/-- Mirrors `remappedPaths?.get(file.path) || file.path` in `process`
(lines 264-274): an absent table, an absent entry, or a JS-falsy (empty
string) entry all fall back to the original path. -/
def remapLookup (remap : Option (List (String × String))) (p : String) : String :=
  match remap with
  | none => p
  | some table =>
    match table.lookup p with
    | none => p
    | some v => if v = "" then p else v

/-- The queue built at the top of `process`: one pending item per file. -/
def buildQueue (remap : Option (List (String × String))) (files : List DLCFile) :
    List DownloadQueueItem :=
  files.map fun file =>
    { file := file
      remappedPath := remapLookup remap file.path
      status := DownloadStatus.pending
      progress := 0
      error := none }

/-- Mirrors `reportProgress` (lines 397-418): the snapshot is recomputed
from the *current* queue and result list — items that have been claimed by
a worker but not yet recorded appear in neither count. -/
def mkProgress (queue : List DownloadQueueItem) (results : List DownloadResult)
    (currentFile : Option String) : DownloadProgress :=
  { totalFiles := queue.length + results.length
    completedFiles := (results.filter fun r => r.status = DownloadStatus.completed).length
    failedFiles := (results.filter fun r => r.status = DownloadStatus.error).length
    currentFile := currentFile
    bytesDownloaded :=
      (((results.filter fun r => r.status = DownloadStatus.completed).map
        fun r => r.file.size)).sum
    totalBytes := ((results.map fun r => r.file.size)).sum }

/-- Mirrors `recordResult` (lines 386-392). -/
def recordResult (s : MState) (file : DLCFile) (status : DownloadStatus)
    (err : Option String) : MState :=
  { s with results := s.results ++ [{ file := file, status := status, error := err }] }

/-- One iteration of the `worker` while-loop (lines 320-331), run to the next
suspension point: if the abort flag is set or the queue is empty the worker
returns; otherwise it shifts the head item, marks it `downloading`, invokes
`reportProgress` (line 342) and issues the `fileExists` check (line 345),
suspending there.  We model the optional callbacks as always supplied. -/
def claimLoop (s : MState) : MState × WorkerState :=
  if s.aborted then (s, WorkerState.done)
  else
    match s.queue with
    | [] => (s, WorkerState.done)
    | item :: rest =>
      let item' := { item with status := DownloadStatus.downloading }
      let prog := mkProgress rest s.results (some item'.file.path)
      ({ s with
          queue := rest
          events := s.events ++
            [DMEvent.onProgress prog,
             DMEvent.fileExistsCall item'.file.path item'.remappedPath] },
       WorkerState.awaitExists item')

/-- Resume one worker at its suspension point and run it atomically up to the
next suspension point (or to worker completion), mirroring
`downloadFile` (lines 336-381):
* `fileExists` true: record `completed` (no `onFileComplete`!) and return to
  the loop;
* `fileExists` false: issue the API download (line 354) and suspend;
* fetch resolved: mark `processing`, issue the upload (line 360), suspend;
* fetch / upload rejected: the `catch` records an `error` outcome with the
  thrown message and invokes `onFileComplete(file, error)`;
* upload resolved: record `completed` and invoke
  `onFileComplete(file, completed)`. -/
def stepWorker (env : Collaborators) (s : MState) : WorkerState → MState × WorkerState
  | WorkerState.atLoop => claimLoop s
  | WorkerState.awaitExists item =>
    if env.fileExists item.remappedPath then
      claimLoop (recordResult s item.file DownloadStatus.completed none)
    else
      ({ s with events := s.events ++ [DMEvent.apiDownloadCall item.file.path item.file.path] },
       WorkerState.awaitFetch item)
  | WorkerState.awaitFetch item =>
    match env.downloadFile item.file.path with
    | Except.ok blob =>
      let item' := { item with status := DownloadStatus.processing }
      ({ s with events := s.events ++ [DMEvent.uploadFileCall item.file.path item.remappedPath] },
       WorkerState.awaitUpload item' blob)
    | Except.error msg =>
      let s1 := recordResult s item.file DownloadStatus.error (some msg)
      claimLoop { s1 with events := s1.events ++
        [DMEvent.onFileComplete item.file.path DownloadStatus.error] }
  | WorkerState.awaitUpload item blob =>
    match env.uploadFile blob item.remappedPath with
    | Except.ok _ =>
      let s1 := recordResult s item.file DownloadStatus.completed none
      claimLoop { s1 with events := s1.events ++
        [DMEvent.onFileComplete item.file.path DownloadStatus.completed] }
    | Except.error msg =>
      let s1 := recordResult s item.file DownloadStatus.error (some msg)
      claimLoop { s1 with events := s1.events ++
        [DMEvent.onFileComplete item.file.path DownloadStatus.error] }
  | WorkerState.done => (s, WorkerState.done)

/-- A scheduler action: resume worker `i`, or an external `abort()` call
(lines 423-427: sets the flag and clears the queue). -/
inductive Action
  | work (i : Nat)
  | abortCall
deriving DecidableEq

/-- Resume worker `i` (a no-op for an out-of-range index). -/
def applyWork (env : Collaborators) (s : MState) (i : Nat) : MState :=
  match s.workers[i]? with
  | some w =>
    let sw := stepWorker env s w
    { sw.1 with workers := s.workers.set i sw.2 }
  | none => s

/-- One scheduler step. -/
def stepAction (env : Collaborators) (s : MState) : Action → MState
  | Action.work i => applyWork env s i
  | Action.abortCall => { s with aborted := true, queue := [] }

/-- Run a schedule. -/
def runSched (env : Collaborators) (s : MState) (sched : List Action) : MState :=
  sched.foldl (stepAction env) s

/-- The state at the top of `process` (lines 258-282): all mutable fields
reset, the queue built from the input files, and `min(concurrency,
queue.length)` workers spawned at the loop head. -/
def initState (files : List DLCFile) (remap : Option (List (String × String)))
    (concurrency : Nat) : MState :=
  let q := buildQueue remap files
  { queue := q
    results := []
    aborted := false
    workers := List.replicate (min concurrency q.length) WorkerState.atLoop
    events := [] }

/-- All workers have returned (`Promise.all` resolved). -/
def allDone (s : MState) : Bool :=
  s.workers.all fun w => w = WorkerState.done

/-- A complete run of `process`: if the schedule drives every worker to
completion, `process` invokes `onComplete(results)` (line 292) and resolves
with the result list; otherwise the run is still pending. -/
def processRun (env : Collaborators) (files : List DLCFile)
    (remap : Option (List (String × String))) (concurrency : Nat)
    (sched : List Action) : Option (List DownloadResult × List DMEvent) :=
  let s := runSched env (initState files remap concurrency) sched
  if allDone s then some (s.results, s.events ++ [DMEvent.onComplete s.results])
  else none

/-- The item (0 or 1) held by a worker continuation. -/
def wItems : WorkerState → List DownloadQueueItem
  | WorkerState.awaitExists item => [item]
  | WorkerState.awaitFetch item => [item]
  | WorkerState.awaitUpload item _ => [item]
  | _ => []

/-- Items claimed by some worker but not yet recorded. -/
def inflightItems (ws : List WorkerState) : List DownloadQueueItem :=
  ws.flatMap wItems

/-- The path held by a worker that is past the `fileExists` check (suspended
at the fetch or the upload). -/
def wFetchPaths : WorkerState → List String
  | WorkerState.awaitFetch item => [item.file.path]
  | WorkerState.awaitUpload item _ => [item.file.path]
  | _ => []

/-- The file held by a worker continuation, if any. -/
def wFiles (w : WorkerState) : List DLCFile :=
  (wItems w).map fun it => it.file

/-- Files claimed by some worker but not yet recorded. -/
def inflightFiles (ws : List WorkerState) : List DLCFile :=
  ws.flatMap wFiles

/-- All files currently accounted for: still queued, claimed in flight, or
recorded.  Workers move files along this pipeline without creating or
dropping any (as long as `abort()` does not discard the queue). -/
def loadFiles (s : MState) : List DLCFile :=
  (s.queue.map fun it => it.file) ++ inflightFiles s.workers ++
    (s.results.map fun r => r.file)

/-- A queue item's destination path is the remap-table translation of its
file's path (established at queue-build time, never mutated). -/
def itemOK (remap : Option (List (String × String))) (it : DownloadQueueItem) : Prop :=
  it.remappedPath = remapLookup remap it.file.path

/-- What a worker's suspension point already learned from the collaborators:
a worker is only parked at the fetch or the upload if the existence check
came back false, and only parked at the upload with the blob the fetch
yielded. -/
def phaseOK (env : Collaborators) : WorkerState → Prop
  | WorkerState.awaitFetch item => env.fileExists item.remappedPath = false
  | WorkerState.awaitUpload item blob =>
    env.fileExists item.remappedPath = false ∧
      env.downloadFile item.file.path = Except.ok blob
  | _ => True

/-- Each recorded outcome is fully determined by the collaborators' responses
for its file: skip-completed when the destination exists, otherwise decided
by the fetch and then the upload, with the thrown message captured. -/
def resultOK (env : Collaborators) (remap : Option (List (String × String)))
    (r : DownloadResult) : Prop :=
  let d := remapLookup remap r.file.path
  if env.fileExists d then
    r.status = DownloadStatus.completed ∧ r.error = none
  else
    match env.downloadFile r.file.path with
    | Except.error m => r.status = DownloadStatus.error ∧ r.error = some m
    | Except.ok b =>
      match env.uploadFile b d with
      | Except.ok _ => r.status = DownloadStatus.completed ∧ r.error = none
      | Except.error m => r.status = DownloadStatus.error ∧ r.error = some m

/-- Per-event soundness: collaborator calls target the remapped destination,
the API download is only issued when the existence check came back false,
`onFileComplete` only carries terminal statuses, progress snapshots never
account for all `n` input files (the claimed in-flight item is invisible to
`reportProgress`), and `onComplete` never fires while workers run. -/
def eventOK (env : Collaborators) (remap : Option (List (String × String)))
    (n : Nat) : DMEvent → Prop
  | DMEvent.fileExistsCall f d => d = remapLookup remap f
  | DMEvent.apiDownloadCall f p =>
    p = f ∧ env.fileExists (remapLookup remap f) = false
  | DMEvent.uploadFileCall f d =>
    d = remapLookup remap f ∧ env.fileExists d = false
  | DMEvent.onProgress p =>
    p.completedFiles + p.failedFiles + 1 ≤ n ∧ p.totalFiles + 1 ≤ n
  | DMEvent.onFileComplete _ st =>
    st = DownloadStatus.completed ∨ st = DownloadStatus.error
  | DMEvent.onComplete _ => False

/-- Recognizers for trace counting. -/
def isOnProgress : DMEvent → Bool
  | DMEvent.onProgress _ => true
  | _ => false

def isFetchFor (f : String) : DMEvent → Bool
  | DMEvent.apiDownloadCall g _ => g == f
  | _ => false

def isFileCompleteFor (f : String) : DMEvent → Bool
  | DMEvent.onFileComplete g _ => g == f
  | _ => false

def isOnCompleteEv : DMEvent → Bool
  | DMEvent.onComplete _ => true
  | _ => false

def isExistsFor (f : String) : DMEvent → Bool
  | DMEvent.fileExistsCall g _ => g == f
  | _ => false

def isUploadFor (f : String) : DMEvent → Bool
  | DMEvent.uploadFileCall g _ => g == f
  | _ => false

/-- How many files are still in the pipeline (queued, in flight or recorded). -/
def loadLen (s : MState) : Nat :=
  s.queue.length + (inflightItems s.workers).length + s.results.length

/-- Files attempted so far: claimed by a worker or already recorded.  Once
`abort()` has discarded the queue, this set is frozen (workers only move
items from in-flight to recorded). -/
def attemptedFiles (s : MState) : List DLCFile :=
  inflightFiles s.workers ++ (s.results.map fun r => r.file)

/-- Upper-case hex digit for `n < 16` (as produced by JS `encodeURIComponent`). -/
def hexDigit (n : Nat) : Char :=
  if n < 10 then Char.ofNat (48 + n) else Char.ofNat (55 + n)

/-- The UTF-8 bytes of a Unicode scalar value (Lean `Char`s are exactly the
scalar values, so the 1-4 byte cases cover everything). -/
def utf8Bytes (n : Nat) : List Nat :=
  if n < 128 then [n]
  else if n < 2048 then [192 + n / 64, 128 + n % 64]
  else if n < 65536 then [224 + n / 4096, 128 + n / 64 % 64, 128 + n % 64]
  else [240 + n / 262144, 128 + n / 4096 % 64, 128 + n / 64 % 64, 128 + n % 64]

/-- The characters JS `encodeURIComponent` leaves unescaped:
`A-Z a-z 0-9` and `- _ . ! ~ * ( )` and the apostrophe (code 39). -/
def isURIUnreserved (n : Nat) : Bool :=
  (65 ≤ n && n ≤ 90) || (97 ≤ n && n ≤ 122) || (48 ≤ n && n ≤ 57) ||
    n == 45 || n == 95 || n == 46 || n == 33 || n == 126 || n == 42 || n == 39 ||
    n == 40 || n == 41

/-- Percent-escape one byte (`%XX`, upper-case hex; 37 is `%`). -/
def pctByte (b : Nat) : List Char :=
  [Char.ofNat 37, hexDigit (b / 16), hexDigit (b % 16)]

/-- JS `encodeURIComponent`: unreserved characters pass through, every other
character is UTF-8-encoded and each byte percent-escaped.  (Lean strings
carry no lone surrogates, so the JS `URIError` case cannot arise.) -/
def encodeURIComponent (s : String) : String :=
  String.mk (s.data.flatMap fun c =>
    if isURIUnreserved c.toNat then [c] else (utf8Bytes c.toNat).flatMap pctByte)

/-- Value of a hex digit, either case; `none` for a non-hex character. -/
def hexVal (c : Char) : Option Nat :=
  let n := c.toNat
  if 48 ≤ n && n ≤ 57 then some (n - 48)
  else if 65 ≤ n && n ≤ 70 then some (n - 55)
  else if 97 ≤ n && n ≤ 102 then some (n - 87)
  else none

/-- First pass of JS `decodeURIComponent`: each `%XX` escape becomes the byte
it denotes (a malformed escape is a `URIError`, i.e. `none`); every other
character passes through. -/
def pctTokens : List Char → Option (List (Sum Char Nat))
  | [] => some []
  | c :: cs =>
    if c.toNat = 37 then
      match cs with
      | h1 :: h2 :: rest =>
        match hexVal h1, hexVal h2 with
        | some a, some b => (pctTokens rest).map fun ts => Sum.inr (16 * a + b) :: ts
        | _, _ => none
      | _ => none
    else (pctTokens cs).map fun ts => Sum.inl c :: ts

/-- Is `b` a UTF-8 continuation byte (`10xxxxxx`)? -/
def isCont (b : Nat) : Bool := 128 ≤ b && b ≤ 191

/-- Second pass of JS `decodeURIComponent`: literal characters pass through;
byte tokens must form valid shortest-form, non-surrogate UTF-8 sequences made
entirely of escapes — exactly the sequences the ECMA-262 `Decode` abstract
operation accepts; anything else is a `URIError` (`none`). -/
def utf8Recombine : List (Sum Char Nat) → Option (List Char)
  | [] => some []
  | Sum.inl c :: ts => (utf8Recombine ts).map fun cs => c :: cs
  | Sum.inr b :: ts =>
    if b < 128 then (utf8Recombine ts).map fun cs => Char.ofNat b :: cs
    else if 194 ≤ b && b ≤ 223 then
      match ts with
      | Sum.inr b2 :: rest =>
        if isCont b2 then
          (utf8Recombine rest).map fun cs =>
            Char.ofNat ((b - 192) * 64 + (b2 - 128)) :: cs
        else none
      | _ => none
    else if 224 ≤ b && b ≤ 239 then
      match ts with
      | Sum.inr b2 :: Sum.inr b3 :: rest =>
        if isCont b2 && isCont b3 then
          let n := (b - 224) * 4096 + (b2 - 128) * 64 + (b3 - 128)
          if 2048 ≤ n && !(55296 ≤ n && n ≤ 57343) then
            (utf8Recombine rest).map fun cs => Char.ofNat n :: cs
          else none
        else none
      | _ => none
    else if 240 ≤ b && b ≤ 244 then
      match ts with
      | Sum.inr b2 :: Sum.inr b3 :: Sum.inr b4 :: rest =>
        if isCont b2 && isCont b3 && isCont b4 then
          let n := (b - 240) * 262144 + (b2 - 128) * 4096 + (b3 - 128) * 64 + (b4 - 128)
          if 65536 ≤ n && n ≤ 1114111 then
            (utf8Recombine rest).map fun cs => Char.ofNat n :: cs
          else none
        else none
      | _ => none
    else none

/-- JS `decodeURIComponent`; `none` models a thrown `URIError`. -/
def decodeURIComponent (s : String) : Option String := do
  let ts ← pctTokens s.data
  let cs ← utf8Recombine ts
  pure (String.mk cs)

/-- Mirrors the JS idiom `map.get(k) || null` on the dialog's remap table: a
missing key or a falsy (empty-string) value yields `null`. -/
def jsGetOrNull (table : List (String × String)) (k : String) : Option String :=
  match table.lookup k with
  | some v => if v = "" then none else some v
  | none => none

/-- Mirrors `DownloadDialog.findRemappedPath` (lines 435-462): try the path
as given, then its percent-decoded form (a decoding `URIError` is swallowed),
then its percent-encoded form; `List.lookup`'s `isSome` plays `Map.has`. -/
def findRemappedPath (table : List (String × String)) (originalPath : String) :
    Option String :=
  if (table.lookup originalPath).isSome then jsGetOrNull table originalPath
  else
    match decodeURIComponent originalPath with
    | some decoded =>
      if (table.lookup decoded).isSome then jsGetOrNull table decoded
      else
        if (table.lookup (encodeURIComponent originalPath)).isSome then
          jsGetOrNull table (encodeURIComponent originalPath)
        else none
    | none =>
      if (table.lookup (encodeURIComponent originalPath)).isSome then
        jsGetOrNull table (encodeURIComponent originalPath)
      else none

/-- Concrete bundles and collaborators used to instantiate the theorems. -/
def fileA : DLCFile := { path := "a.png", size := 4 }

def fileB : DLCFile := { path := "b.png", size := 2 }

def fileC : DLCFile := { path := "c.png", size := 1 }

def fileD : DLCFile := { path := "d.png", size := 3 }

def fileE : DLCFile := { path := "e.png", size := 5 }

/-- Collaborators for which every destination is fresh, every fetch and
upload succeeds. -/
def envAllOk : Collaborators :=
  { fileExists := fun _ => false
    downloadFile := fun _ => Except.ok 3
    uploadFile := fun _ _ => Except.ok () }

/-- Collaborators for which the fetch of `c.png` alone fails. -/
def envOneFetchFailure : Collaborators :=
  { fileExists := fun _ => false
    downloadFile := fun p =>
      if p = "c.png" then Except.error "File not found." else Except.ok 7
    uploadFile := fun _ _ => Except.ok () }

/-- Collaborators for which the storage write to `c.png` alone fails. -/
def envOneUploadFailure : Collaborators :=
  { fileExists := fun _ => false
    downloadFile := fun _ => Except.ok 7
    uploadFile := fun _ d =>
      if d = "c.png" then Except.error "EACCES: permission denied" else Except.ok () }

/-- Collaborators for which the destination of `a.png` already exists. -/
def envSkipA : Collaborators :=
  { fileExists := fun d => d = "a.png"
    downloadFile := fun _ => Except.ok 9
    uploadFile := fun _ _ => Except.ok () }

/-- The run invariant of `process`, preserved by every scheduler action. -/
structure Inv (env : Collaborators) (remap : Option (List (String × String)))
    (files : List DLCFile) (s : MState) : Prop where
  queue_ok : ∀ it ∈ s.queue, itemOK remap it
  inflight_ok : ∀ it ∈ inflightItems s.workers, itemOK remap it
  phase_ok : ∀ w ∈ s.workers, phaseOK env w
  results_ok : ∀ r ∈ s.results, resultOK env remap r
  events_ok : ∀ e ∈ s.events, eventOK env remap files.length e
  count_progress : s.events.countP isOnProgress =
    (inflightItems s.workers).length + s.results.length
  fetch_balance : ∀ f, s.events.countP (isFetchFor f) =
    s.events.countP (isFileCompleteFor f) +
      (s.workers.flatMap wFetchPaths).countP (fun g => g == f)
  load_le : loadLen s ≤ files.length
  done_empty : s.aborted = false → WorkerState.done ∈ s.workers → s.queue = []
  abort_empty : s.aborted = true → s.queue = []

/-- Replacing the `i`-th worker changes any `flatMap` aggregate by swapping
the old worker's contribution for the new one's: the `countP` ledger. -/
theorem countP_flatMap_set {α : Type} (f : WorkerState → List α) (p : α → Bool) :
    ∀ (ws : List WorkerState) (i : Nat) (w w' : WorkerState),
      ws[i]? = some w →
      ((ws.set i w').flatMap f).countP p + (f w).countP p =
        (ws.flatMap f).countP p + (f w').countP p
  | [], i, w, w', h => by simp at h
  | x :: xs, 0, w, w', h => by
    simp only [List.getElem?_cons_zero, Option.some.injEq] at h
    subst h
    simp only [List.set_cons_zero, List.flatMap_cons, List.countP_append]
    omega
  | x :: xs, i + 1, w, w', h => by
    simp only [List.getElem?_cons_succ] at h
    have ih := countP_flatMap_set f p xs i w w' h
    simp only [List.set_cons_succ, List.flatMap_cons, List.countP_append]
    omega

/-- The length version of the exchange ledger. -/
theorem length_flatMap_set {α : Type} (f : WorkerState → List α) :
    ∀ (ws : List WorkerState) (i : Nat) (w w' : WorkerState),
      ws[i]? = some w →
      ((ws.set i w').flatMap f).length + (f w).length =
        (ws.flatMap f).length + (f w').length
  | [], i, w, w', h => by simp at h
  | x :: xs, 0, w, w', h => by
    simp only [List.getElem?_cons_zero, Option.some.injEq] at h
    subst h
    simp only [List.set_cons_zero, List.flatMap_cons, List.length_append]
    omega
  | x :: xs, i + 1, w, w', h => by
    simp only [List.getElem?_cons_succ] at h
    have ih := length_flatMap_set f xs i w w' h
    simp only [List.set_cons_succ, List.flatMap_cons, List.length_append]
    omega

/-- The count version (for permutation reasoning). -/
theorem count_flatMap_set {α : Type} [DecidableEq α] (f : WorkerState → List α)
    (ws : List WorkerState) (i : Nat) (w w' : WorkerState) (h : ws[i]? = some w)
    (a : α) :
    ((ws.set i w').flatMap f).count a + (f w).count a =
      (ws.flatMap f).count a + (f w').count a := by
  simpa only [List.count] using countP_flatMap_set f (fun x => x == a) ws i w w' h

/-- Membership after replacing one worker. -/
theorem mem_flatMap_set {α : Type} (f : WorkerState → List α)
    (ws : List WorkerState) (i : Nat) (w' : WorkerState) {a : α}
    (h : a ∈ (ws.set i w').flatMap f) : a ∈ ws.flatMap f ∨ a ∈ f w' := by
  rcases List.mem_flatMap.mp h with ⟨w'', hw'', ha⟩
  rcases List.mem_or_eq_of_mem_set hw'' with hmem | rfl
  · exact Or.inl (List.mem_flatMap.mpr ⟨w'', hmem, ha⟩)
  · exact Or.inr ha

/-- Setting an index to the value it already holds is the identity. -/
theorem set_self_of_getElem? {α : Type} :
    ∀ (l : List α) (i : Nat) (a : α), l[i]? = some a → l.set i a = l
  | [], i, a, h => by simp at h
  | x :: xs, 0, a, h => by
    simp only [List.getElem?_cons_zero, Option.some.injEq] at h
    simp [h]
  | x :: xs, i + 1, a, h => by
    simp only [List.getElem?_cons_succ] at h
    simp [set_self_of_getElem? xs i a h]

/-- Two mutually exclusive predicates count at most the whole list. -/
theorem countP_add_le_length {α : Type} (p q : α → Bool)
    (hpq : ∀ a, ¬(p a = true ∧ q a = true)) :
    ∀ l : List α, l.countP p + l.countP q ≤ l.length
  | [] => by simp
  | x :: xs => by
    have ih := countP_add_le_length p q hpq xs
    have hx := hpq x
    simp only [List.countP_cons, List.length_cons]
    cases hp : p x <;> cases hq' : q x <;> simp_all <;> omega

/-- The three outcomes of one `worker`-loop iteration. -/
theorem claimLoop_spec (s : MState) :
    (s.aborted = true ∧ claimLoop s = (s, WorkerState.done)) ∨
    (s.aborted = false ∧ s.queue = [] ∧ claimLoop s = (s, WorkerState.done)) ∨
    (∃ item rest, s.aborted = false ∧ s.queue = item :: rest ∧
      claimLoop s =
        ({ s with
            queue := rest
            events := s.events ++
              [DMEvent.onProgress (mkProgress rest s.results (some item.file.path)),
               DMEvent.fileExistsCall item.file.path item.remappedPath] },
         WorkerState.awaitExists { item with status := DownloadStatus.downloading })) := by
  by_cases ha : s.aborted
  · exact Or.inl ⟨ha, by simp [claimLoop, ha]⟩
  · cases hq : s.queue with
    | nil =>
      exact Or.inr (Or.inl ⟨by simpa using ha, rfl, by simp [claimLoop, ha, hq]⟩)
    | cons item rest =>
      refine Or.inr (Or.inr ⟨item, rest, by simpa using ha, rfl, ?_⟩)
      simp [claimLoop, ha, hq]

/-- `claimLoop` never reads the worker list, so it commutes with replacing it. -/
theorem claimLoop_set_workers (s : MState) (wsx : List WorkerState) :
    claimLoop { s with workers := wsx } =
      ({ (claimLoop s).1 with workers := wsx }, (claimLoop s).2) := by
  by_cases ha : s.aborted
  · simp [claimLoop, ha]
  · cases hq : s.queue with
    | nil => simp [claimLoop, ha, hq]
    | cons item rest => simp [claimLoop, ha, hq]

/-- Resuming a worker whose recording is already merged into the state and
whose slot is reset to the loop head is the same as the tail `claimLoop` of
the original resumption. -/
theorem applyWork_mid (env : Collaborators) (s₁ : MState) (ws : List WorkerState)
    (i : Nat) (hi : i < ws.length) :
    applyWork env { s₁ with workers := ws.set i WorkerState.atLoop } i =
      { (claimLoop s₁).1 with workers := ws.set i (claimLoop s₁).2 } := by
  have hget : (ws.set i WorkerState.atLoop)[i]? = some WorkerState.atLoop := by
    simp [List.getElem?_set_self, hi]
  have hcomm := claimLoop_set_workers s₁ (ws.set i WorkerState.atLoop)
  simp only [applyWork, hget, stepWorker, hcomm, List.set_set]

/-- Resuming a worker parked at the loop head preserves the invariant and the
pipeline contents (as a multiset of files). -/
theorem inv_claim (env : Collaborators) (remap : Option (List (String × String)))
    (files : List DLCFile) {s : MState} (hInv : Inv env remap files s)
    (i : Nat) (h : s.workers[i]? = some WorkerState.atLoop) :
    Inv env remap files (applyWork env s i) ∧
    ∀ x, (loadFiles (applyWork env s i)).count x = (loadFiles s).count x := by
  have hretire : claimLoop s = (s, WorkerState.done) →
      (s.aborted = false → s.queue = []) →
      Inv env remap files (applyWork env s i) ∧
      ∀ x, (loadFiles (applyWork env s i)).count x = (loadFiles s).count x := by
    intro hcl hqemp
    have hF : applyWork env s i = { s with workers := s.workers.set i WorkerState.done } := by
      simp only [applyWork, h, stepWorker, hcl]
    rw [hF]
    refine ⟨⟨?_, ?_, ?_, ?_, ?_, ?_, ?_, ?_, ?_, ?_⟩, ?_⟩
    · exact hInv.queue_ok
    · intro it hit
      rcases mem_flatMap_set wItems s.workers i WorkerState.done hit with hold | hnew
      · exact hInv.inflight_ok it hold
      · simp [wItems] at hnew
    · intro w hw
      rcases List.mem_or_eq_of_mem_set hw with hold | rfl
      · exact hInv.phase_ok w hold
      · trivial
    · exact hInv.results_ok
    · exact hInv.events_ok
    · have hx := length_flatMap_set wItems s.workers i WorkerState.atLoop WorkerState.done h
      have hc := hInv.count_progress
      simp only [wItems, List.length_nil] at hx
      simp only [inflightItems] at hc ⊢
      omega
    · intro f
      have hx := countP_flatMap_set wFetchPaths (fun g => g == f) s.workers i
        WorkerState.atLoop WorkerState.done h
      have hb := hInv.fetch_balance f
      simp only [wFetchPaths, List.countP_nil] at hx
      dsimp only
      omega
    · have hx := length_flatMap_set wItems s.workers i WorkerState.atLoop WorkerState.done h
      have hl := hInv.load_le
      simp only [wItems, List.length_nil] at hx
      simp only [loadLen, inflightItems] at hl ⊢
      omega
    · intro hab hdone
      rcases List.mem_or_eq_of_mem_set hdone with hold | _
      · exact hInv.done_empty hab hold
      · exact hqemp hab
    · exact hInv.abort_empty
    · intro x
      have hx := count_flatMap_set wFiles s.workers i WorkerState.atLoop WorkerState.done h x
      simp only [wFiles, wItems, List.map_nil, List.count_nil] at hx
      simp only [loadFiles, List.count_append, inflightFiles]
      omega
  rcases claimLoop_spec s with ⟨ha, hcl⟩ | ⟨ha, hq, hcl⟩ | ⟨item, rest, ha, hq, hcl⟩
  · exact hretire hcl (fun hf => absurd ha (by simp [hf]))
  · exact hretire hcl (fun _ => hq)
  · -- a fresh item is claimed
    have hF : applyWork env s i =
        { s with
            queue := rest
            events := s.events ++
              [DMEvent.onProgress (mkProgress rest s.results (some item.file.path)),
               DMEvent.fileExistsCall item.file.path item.remappedPath]
            workers := s.workers.set i
              (WorkerState.awaitExists { item with status := DownloadStatus.downloading }) } := by
      simp only [applyWork, h, stepWorker, hcl]
    have hitem : itemOK remap item :=
      hInv.queue_ok item (by rw [hq]; exact List.mem_cons_self item rest)
    rw [hF]
    refine ⟨⟨?_, ?_, ?_, ?_, ?_, ?_, ?_, ?_, ?_, ?_⟩, ?_⟩
    · intro it hit
      exact hInv.queue_ok it (by rw [hq]; exact List.mem_cons_of_mem item hit)
    · intro it hit
      rcases mem_flatMap_set wItems s.workers i _ hit with hold | hnew
      · exact hInv.inflight_ok it hold
      · simp only [wItems, List.mem_singleton] at hnew
        subst hnew
        exact hitem
    · intro w hw
      rcases List.mem_or_eq_of_mem_set hw with hold | rfl
      · exact hInv.phase_ok w hold
      · trivial
    · exact hInv.results_ok
    · intro e he
      rcases List.mem_append.mp he with hold | hnew
      · exact hInv.events_ok e hold
      · have hload := hInv.load_le
        have hdisj := countP_add_le_length
          (fun r : DownloadResult => decide (r.status = DownloadStatus.completed))
          (fun r : DownloadResult => decide (r.status = DownloadStatus.error))
          (by
            intro r hr
            rcases hr with ⟨h1, h2⟩
            simp only [decide_eq_true_eq] at h1 h2
            rw [h1] at h2
            cases h2)
          s.results
        simp only [List.mem_cons, List.mem_singleton, List.not_mem_nil, or_false] at hnew
        rcases hnew with rfl | rfl
        · constructor
          · have h1 : (List.filter
                (fun r : DownloadResult => decide (r.status = DownloadStatus.completed))
                s.results).length =
                s.results.countP
                  (fun r => decide (r.status = DownloadStatus.completed)) :=
              (List.countP_eq_length_filter _ _).symm
            have h2 : (List.filter
                (fun r : DownloadResult => decide (r.status = DownloadStatus.error))
                s.results).length =
                s.results.countP
                  (fun r => decide (r.status = DownloadStatus.error)) :=
              (List.countP_eq_length_filter _ _).symm
            simp only [eventOK, mkProgress]
            simp only [loadLen, hq, List.length_cons] at hload
            omega
          · simp only [eventOK, mkProgress]
            simp only [loadLen, hq, List.length_cons] at hload
            omega
        · simpa [eventOK] using hitem
    · have hx := length_flatMap_set wItems s.workers i WorkerState.atLoop
        (WorkerState.awaitExists { item with status := DownloadStatus.downloading }) h
      have hc := hInv.count_progress
      simp only [wItems, List.length_nil, List.length_singleton] at hx
      dsimp only
      rw [List.countP_append]
      have hev : List.countP isOnProgress
          [DMEvent.onProgress (mkProgress rest s.results (some item.file.path)),
           DMEvent.fileExistsCall item.file.path item.remappedPath] = 1 := by
        simp [isOnProgress]
      rw [hev]
      simp only [inflightItems] at hc ⊢
      omega
    · intro f
      have hx := countP_flatMap_set wFetchPaths (fun g => g == f) s.workers i
        WorkerState.atLoop
        (WorkerState.awaitExists { item with status := DownloadStatus.downloading }) h
      have hb := hInv.fetch_balance f
      simp only [wFetchPaths, List.countP_nil] at hx
      dsimp only
      rw [List.countP_append, List.countP_append]
      have h1 : List.countP (isFetchFor f)
          [DMEvent.onProgress (mkProgress rest s.results (some item.file.path)),
           DMEvent.fileExistsCall item.file.path item.remappedPath] = 0 := by
        simp [isFetchFor]
      have h2 : List.countP (isFileCompleteFor f)
          [DMEvent.onProgress (mkProgress rest s.results (some item.file.path)),
           DMEvent.fileExistsCall item.file.path item.remappedPath] = 0 := by
        simp [isFileCompleteFor]
      rw [h1, h2]
      omega
    · have hx := length_flatMap_set wItems s.workers i WorkerState.atLoop
        (WorkerState.awaitExists { item with status := DownloadStatus.downloading }) h
      have hl := hInv.load_le
      simp only [wItems, List.length_nil, List.length_singleton] at hx
      simp only [loadLen, inflightItems, hq, List.length_cons] at hl ⊢
      omega
    · intro hab hdone
      rcases List.mem_or_eq_of_mem_set hdone with hold | hnew
      · have := hInv.done_empty hab hold
        rw [hq] at this
        cases this
      · cases hnew
    · intro habt
      rw [ha] at habt
      cases habt
    · intro x
      have hx := count_flatMap_set wFiles s.workers i WorkerState.atLoop
        (WorkerState.awaitExists { item with status := DownloadStatus.downloading }) h x
      simp only [wFiles, wItems, List.map_nil, List.count_nil, List.map_cons] at hx
      simp only [loadFiles, List.count_append, inflightFiles, hq, List.map_cons]
      simp only [List.count_cons, List.count_nil] at hx ⊢
      cases hb : (item.file == x) <;> simp only [hb] at hx ⊢ <;> omega

/-- Merging one recorded outcome (and the callback events emitted with it)
into the state and resetting the recording worker's slot to the loop head
preserves the invariant and exchanges the in-flight item for a result entry. -/
theorem inv_record (env : Collaborators) (remap : Option (List (String × String)))
    (files : List DLCFile) {s : MState} (hInv : Inv env remap files s)
    (i : Nat) {w : WorkerState} (h : s.workers[i]? = some w)
    (item : DownloadQueueItem) (hwit : wItems w = [item])
    (st : DownloadStatus) (er : Option String)
    (hres : resultOK env remap { file := item.file, status := st, error := er })
    (es : List DMEvent)
    (hes_ok : ∀ e ∈ es, eventOK env remap files.length e)
    (hes_prog : es.countP isOnProgress = 0)
    (hes_fetch : ∀ f, es.countP (isFetchFor f) = 0)
    (hes_fc : ∀ f, es.countP (isFileCompleteFor f) =
      (wFetchPaths w).countP (fun g => g == f)) :
    Inv env remap files
      { s with
          results := s.results ++ [{ file := item.file, status := st, error := er }]
          events := s.events ++ es
          workers := s.workers.set i WorkerState.atLoop } ∧
    ∀ x, (loadFiles
      { s with
          results := s.results ++ [{ file := item.file, status := st, error := er }]
          events := s.events ++ es
          workers := s.workers.set i WorkerState.atLoop }).count x =
      (loadFiles s).count x := by
  refine ⟨⟨?_, ?_, ?_, ?_, ?_, ?_, ?_, ?_, ?_, ?_⟩, ?_⟩
  · exact hInv.queue_ok
  · intro it hit
    rcases mem_flatMap_set wItems s.workers i WorkerState.atLoop hit with hold | hnew
    · exact hInv.inflight_ok it hold
    · simp [wItems] at hnew
  · intro w' hw
    rcases List.mem_or_eq_of_mem_set hw with hold | rfl
    · exact hInv.phase_ok w' hold
    · trivial
  · intro r hr
    rcases List.mem_append.mp hr with hold | hnew
    · exact hInv.results_ok r hold
    · simp only [List.mem_singleton] at hnew
      subst hnew
      exact hres
  · intro e he
    rcases List.mem_append.mp he with hold | hnew
    · exact hInv.events_ok e hold
    · exact hes_ok e hnew
  · have hx := length_flatMap_set wItems s.workers i w WorkerState.atLoop h
    have hc := hInv.count_progress
    rw [hwit] at hx
    simp only [wItems, List.length_singleton, List.length_nil] at hx
    dsimp only
    rw [List.countP_append, hes_prog]
    simp only [inflightItems] at hc ⊢
    simp only [List.length_append, List.length_singleton]
    omega
  · intro f
    have hx := countP_flatMap_set wFetchPaths (fun g => g == f) s.workers i
      w WorkerState.atLoop h
    have hb := hInv.fetch_balance f
    have hfc := hes_fc f
    have hwn : wFetchPaths WorkerState.atLoop = ([] : List String) := rfl
    rw [hwn, List.countP_nil] at hx
    dsimp only
    rw [List.countP_append, List.countP_append, hes_fetch f, hfc]
    omega
  · have hx := length_flatMap_set wItems s.workers i w WorkerState.atLoop h
    have hl := hInv.load_le
    rw [hwit] at hx
    simp only [List.length_singleton, wItems, List.length_nil] at hx
    simp only [loadLen, inflightItems, List.length_append, List.length_singleton] at hl ⊢
    omega
  · intro hab hdone
    rcases List.mem_or_eq_of_mem_set hdone with hold | hnew
    · exact hInv.done_empty hab hold
    · cases hnew
  · exact hInv.abort_empty
  · intro x
    have hx := count_flatMap_set wFiles s.workers i w WorkerState.atLoop h x
    have hw2 : wFiles w = [item.file] := by simp [wFiles, hwit]
    rw [hw2] at hx
    simp only [wFiles, wItems, List.map_nil, List.count_nil] at hx
    simp only [loadFiles, List.count_append, inflightFiles, List.map_append, List.map_cons,
      List.map_nil]
    simp only [List.count_cons, List.count_nil] at hx ⊢
    cases hb2 : (item.file == x) <;> simp only [hb2] at hx ⊢ <;> omega

/-- A resumption that records one outcome and falls through to the next loop
iteration preserves the invariant and the pipeline contents. -/
theorem inv_record_claim (env : Collaborators) (remap : Option (List (String × String)))
    (files : List DLCFile) {s : MState} (hInv : Inv env remap files s)
    (i : Nat) {w : WorkerState} (h : s.workers[i]? = some w)
    (item : DownloadQueueItem) (hwit : wItems w = [item])
    (st : DownloadStatus) (er : Option String)
    (hres : resultOK env remap { file := item.file, status := st, error := er })
    (es : List DMEvent)
    (hes_ok : ∀ e ∈ es, eventOK env remap files.length e)
    (hes_prog : es.countP isOnProgress = 0)
    (hes_fetch : ∀ f, es.countP (isFetchFor f) = 0)
    (hes_fc : ∀ f, es.countP (isFileCompleteFor f) =
      (wFetchPaths w).countP (fun g => g == f))
    (hstep : stepWorker env s w =
      claimLoop
        { s with
            results := s.results ++ [{ file := item.file, status := st, error := er }]
            events := s.events ++ es }) :
    Inv env remap files (applyWork env s i) ∧
    ∀ x, (loadFiles (applyWork env s i)).count x = (loadFiles s).count x := by
  have hi : i < s.workers.length := by
    rcases List.getElem?_eq_some_iff.mp h with ⟨h', _⟩
    exact h'
  have hF : applyWork env s i =
      { (claimLoop
          { s with
              results := s.results ++ [{ file := item.file, status := st, error := er }]
              events := s.events ++ es }).1 with
        workers := s.workers.set i
          (claimLoop
            { s with
                results := s.results ++ [{ file := item.file, status := st, error := er }]
                events := s.events ++ es }).2 } := by
    simp only [applyWork, h, hstep]
  rw [hF, ← applyWork_mid env
    { s with
        results := s.results ++ [{ file := item.file, status := st, error := er }]
        events := s.events ++ es } s.workers i hi]
  have hmid : Inv env remap files
      { s with
          results := s.results ++ [{ file := item.file, status := st, error := er }]
          events := s.events ++ es
          workers := s.workers.set i WorkerState.atLoop } ∧
      ∀ x, (loadFiles
        { s with
            results := s.results ++ [{ file := item.file, status := st, error := er }]
            events := s.events ++ es
            workers := s.workers.set i WorkerState.atLoop }).count x =
        (loadFiles s).count x :=
    inv_record env remap files hInv i h item hwit st er hres es hes_ok hes_prog
      hes_fetch hes_fc
  have hslot : ({ s with
      results := s.results ++ [{ file := item.file, status := st, error := er }]
      events := s.events ++ es
      workers := s.workers.set i WorkerState.atLoop } : MState).workers[i]? =
        some WorkerState.atLoop := by
    simp [List.getElem?_set_self, hi]
  have hclaim := inv_claim env remap files hmid.1 i hslot
  exact ⟨hclaim.1, fun x => (hclaim.2 x).trans (hmid.2 x)⟩

/-- A resumption that moves the claimed item to the next suspension point
(emitting one collaborator-call event) preserves the invariant and the
pipeline contents. -/
theorem inv_move (env : Collaborators) (remap : Option (List (String × String)))
    (files : List DLCFile) {s : MState} (hInv : Inv env remap files s)
    (i : Nat) {w : WorkerState} (h : s.workers[i]? = some w)
    (w' : WorkerState) (item item' : DownloadQueueItem)
    (hwit : wItems w = [item]) (hwit' : wItems w' = [item'])
    (hfile : item'.file = item.file) (hpath : item'.remappedPath = item.remappedPath)
    (hph : phaseOK env w') (hnd : w' ≠ WorkerState.done)
    (es : List DMEvent)
    (hes_ok : ∀ e ∈ es, eventOK env remap files.length e)
    (hes_prog : es.countP isOnProgress = 0)
    (hfb : ∀ f, es.countP (isFetchFor f) +
        (wFetchPaths w).countP (fun g => g == f) =
      (wFetchPaths w').countP (fun g => g == f))
    (hfc : ∀ f, es.countP (isFileCompleteFor f) = 0)
    (hstep : stepWorker env s w = ({ s with events := s.events ++ es }, w')) :
    Inv env remap files (applyWork env s i) ∧
    ∀ x, (loadFiles (applyWork env s i)).count x = (loadFiles s).count x := by
  have hmemw : w ∈ s.workers := List.getElem?_mem h
  have hitem : item ∈ inflightItems s.workers :=
    List.mem_flatMap.mpr ⟨w, hmemw, by rw [hwit]; exact List.mem_singleton.mpr rfl⟩
  have hio := hInv.inflight_ok item hitem
  have hF : applyWork env s i =
      { s with
          events := s.events ++ es
          workers := s.workers.set i w' } := by
    simp only [applyWork, h, hstep]
  rw [hF]
  refine ⟨⟨?_, ?_, ?_, ?_, ?_, ?_, ?_, ?_, ?_, ?_⟩, ?_⟩
  · exact hInv.queue_ok
  · intro it hit
    rcases mem_flatMap_set wItems s.workers i w' hit with hold | hnew
    · exact hInv.inflight_ok it hold
    · rw [hwit'] at hnew
      simp only [List.mem_singleton] at hnew
      subst hnew
      simp only [itemOK, hpath, hfile]
      exact hio
  · intro w'' hw
    rcases List.mem_or_eq_of_mem_set hw with hold | rfl
    · exact hInv.phase_ok w'' hold
    · exact hph
  · exact hInv.results_ok
  · intro e he
    rcases List.mem_append.mp he with hold | hnew
    · exact hInv.events_ok e hold
    · exact hes_ok e hnew
  · have hx := length_flatMap_set wItems s.workers i w w' h
    have hc := hInv.count_progress
    rw [hwit, hwit'] at hx
    simp only [List.length_singleton] at hx
    dsimp only
    rw [List.countP_append, hes_prog]
    simp only [inflightItems] at hc ⊢
    omega
  · intro f
    have hx := countP_flatMap_set wFetchPaths (fun g => g == f) s.workers i w w' h
    have hb := hInv.fetch_balance f
    have hd := hfb f
    have hfc' := hfc f
    dsimp only
    rw [List.countP_append, List.countP_append, hfc']
    omega
  · have hx := length_flatMap_set wItems s.workers i w w' h
    have hl := hInv.load_le
    rw [hwit, hwit'] at hx
    simp only [List.length_singleton] at hx
    simp only [loadLen, inflightItems] at hl ⊢
    omega
  · intro hab hdone
    rcases List.mem_or_eq_of_mem_set hdone with hold | hnew
    · exact hInv.done_empty hab hold
    · exact absurd hnew.symm hnd
  · exact hInv.abort_empty
  · intro x
    have hx := count_flatMap_set wFiles s.workers i w w' h x
    have hw2 : wFiles w = [item.file] := by simp [wFiles, hwit]
    have hw3 : wFiles w' = [item.file] := by simp [wFiles, hwit', hfile]
    rw [hw2, hw3] at hx
    simp only [loadFiles, List.count_append, inflightFiles]
    omega

/-- Every worker resumption preserves the invariant and moves no file into or
out of the pipeline. -/
theorem invCount_applyWork (env : Collaborators) (remap : Option (List (String × String)))
    (files : List DLCFile) {s : MState} (hInv : Inv env remap files s) (i : Nat) :
    Inv env remap files (applyWork env s i) ∧
    ∀ x, (loadFiles (applyWork env s i)).count x = (loadFiles s).count x := by
  cases h : s.workers[i]? with
  | none =>
    have hF : applyWork env s i = s := by simp [applyWork, h]
    rw [hF]
    exact ⟨hInv, fun x => rfl⟩
  | some w =>
    have hmemw : w ∈ s.workers := List.getElem?_mem h
    cases w with
    | atLoop => exact inv_claim env remap files hInv i h
    | done =>
      have hF : applyWork env s i = s := by
        simp only [applyWork, h, stepWorker]
        rw [set_self_of_getElem? s.workers i WorkerState.done h]
      rw [hF]
      exact ⟨hInv, fun x => rfl⟩
    | awaitExists item =>
      have hitem : item ∈ inflightItems s.workers :=
        List.mem_flatMap.mpr ⟨_, hmemw, by simp [wItems]⟩
      have hio := hInv.inflight_ok item hitem
      cases hex : env.fileExists item.remappedPath with
      | true =>
        refine inv_record_claim env remap files hInv i h item (by simp [wItems])
          DownloadStatus.completed none ?_ [] (by simp) (by simp [isOnProgress])
          (fun f => by simp [isFetchFor]) (fun f => by simp [wFetchPaths]) ?_
        · simp only [resultOK]
          rw [← hio]
          simp [hex]
        · simp [stepWorker, hex, recordResult]
      | false =>
        refine inv_move env remap files hInv i h (WorkerState.awaitFetch item) item item
          (by simp [wItems]) (by simp [wItems]) rfl rfl ?_ (by simp)
          [DMEvent.apiDownloadCall item.file.path item.file.path] ?_
          (by simp [isOnProgress]) ?_
          (fun f => by simp [isFileCompleteFor, List.countP_cons, List.countP_nil]) ?_
        · simpa [phaseOK] using hex
        · intro e he
          simp only [List.mem_singleton] at he
          subst he
          refine ⟨rfl, ?_⟩
          rw [← hio]
          exact hex
        · intro f
          simp [isFetchFor, wFetchPaths, List.countP_cons, List.countP_nil]
        · simp [stepWorker, hex]
    | awaitFetch item =>
      have hitem : item ∈ inflightItems s.workers :=
        List.mem_flatMap.mpr ⟨_, hmemw, by simp [wItems]⟩
      have hio := hInv.inflight_ok item hitem
      have hph := hInv.phase_ok _ hmemw
      simp only [phaseOK] at hph
      cases hdl : env.downloadFile item.file.path with
      | ok blob =>
        refine inv_move env remap files hInv i h
          (WorkerState.awaitUpload { item with status := DownloadStatus.processing } blob)
          item { item with status := DownloadStatus.processing }
          (by simp [wItems]) (by simp [wItems]) rfl rfl ?_ (by simp)
          [DMEvent.uploadFileCall item.file.path item.remappedPath] ?_
          (by simp [isOnProgress]) ?_
          (fun f => by simp [isFileCompleteFor, List.countP_cons, List.countP_nil]) ?_
        · exact ⟨hph, hdl⟩
        · intro e he
          simp only [List.mem_singleton] at he
          subst he
          exact ⟨hio, hph⟩
        · intro f
          simp [isFetchFor, wFetchPaths, List.countP_cons, List.countP_nil]
        · simp [stepWorker, hdl]
      | error msg =>
        refine inv_record_claim env remap files hInv i h item (by simp [wItems])
          DownloadStatus.error (some msg) ?_
          [DMEvent.onFileComplete item.file.path DownloadStatus.error] ?_
          (by simp [isOnProgress]) (fun f => by simp [isFetchFor])
          (fun f => by
            simp [isFileCompleteFor, wFetchPaths, List.countP_cons, List.countP_nil]) ?_
        · simp only [resultOK]
          rw [← hio]
          simp [hph, hdl]
        · intro e he
          simp only [List.mem_singleton] at he
          subst he
          exact Or.inr rfl
        · simp only [stepWorker, hdl, recordResult]
    | awaitUpload item blob =>
      have hitem : item ∈ inflightItems s.workers :=
        List.mem_flatMap.mpr ⟨_, hmemw, by simp [wItems]⟩
      have hio := hInv.inflight_ok item hitem
      have hph := hInv.phase_ok _ hmemw
      simp only [phaseOK] at hph
      cases hup : env.uploadFile blob item.remappedPath with
      | ok u =>
        refine inv_record_claim env remap files hInv i h item (by simp [wItems])
          DownloadStatus.completed none ?_
          [DMEvent.onFileComplete item.file.path DownloadStatus.completed] ?_
          (by simp [isOnProgress]) (fun f => by simp [isFetchFor])
          (fun f => by
            simp [isFileCompleteFor, wFetchPaths, List.countP_cons, List.countP_nil]) ?_
        · simp only [resultOK]
          rw [← hio]
          simp [hph.1, hph.2, hup]
        · intro e he
          simp only [List.mem_singleton] at he
          subst he
          exact Or.inl rfl
        · simp only [stepWorker, hup, recordResult]
      | error msg =>
        refine inv_record_claim env remap files hInv i h item (by simp [wItems])
          DownloadStatus.error (some msg) ?_
          [DMEvent.onFileComplete item.file.path DownloadStatus.error] ?_
          (by simp [isOnProgress]) (fun f => by simp [isFetchFor])
          (fun f => by
            simp [isFileCompleteFor, wFetchPaths, List.countP_cons, List.countP_nil]) ?_
        · simp only [resultOK]
          rw [← hio]
          simp [hph.1, hph.2, hup]
        · intro e he
          simp only [List.mem_singleton] at he
          subst he
          exact Or.inr rfl
        · simp only [stepWorker, hup, recordResult]

/-- `abort()` preserves the invariant (it discards the queue and raises the
flag; results, workers and the trace are untouched). -/
theorem inv_abort (env : Collaborators) (remap : Option (List (String × String)))
    (files : List DLCFile) {s : MState} (hInv : Inv env remap files s) :
    Inv env remap files (stepAction env s Action.abortCall) := by
  refine ⟨?_, hInv.inflight_ok, hInv.phase_ok, hInv.results_ok, hInv.events_ok,
    hInv.count_progress, hInv.fetch_balance, ?_, ?_, ?_⟩
  · intro it hit
    simp [stepAction] at hit
  · have := hInv.load_le
    simp only [loadLen, stepAction, List.length_nil] at this ⊢
    omega
  · intro hab hdone
    rfl
  · intro _
    rfl

/-- Every scheduler action preserves the invariant. -/
theorem inv_stepAction (env : Collaborators) (remap : Option (List (String × String)))
    (files : List DLCFile) {s : MState} (hInv : Inv env remap files s) (a : Action) :
    Inv env remap files (stepAction env s a) := by
  cases a with
  | work i => exact (invCount_applyWork env remap files hInv i).1
  | abortCall => exact inv_abort env remap files hInv

/-- The invariant holds along any schedule. -/
theorem inv_runSched (env : Collaborators) (remap : Option (List (String × String)))
    (files : List DLCFile) :
    ∀ (sched : List Action) {s : MState}, Inv env remap files s →
      Inv env remap files (runSched env s sched)
  | [], _, hInv => hInv
  | a :: as, s, hInv =>
    inv_runSched env remap files as (inv_stepAction env remap files hInv a)

/-- A `flatMap` over a pool of workers all parked at the loop head is empty. -/
theorem flatMap_replicate_atLoop {α : Type} (f : WorkerState → List α)
    (hf : f WorkerState.atLoop = []) :
    ∀ n : Nat, (List.replicate n WorkerState.atLoop).flatMap f = []
  | 0 => by simp
  | n + 1 => by
    simp [List.replicate_succ, hf, flatMap_replicate_atLoop f hf n]

/-- The invariant holds at the top of `process`. -/
theorem inv_initState (env : Collaborators) (remap : Option (List (String × String)))
    (files : List DLCFile) (concurrency : Nat) :
    Inv env remap files (initState files remap concurrency) := by
  have hinfl : inflightItems (initState files remap concurrency).workers = [] :=
    flatMap_replicate_atLoop wItems rfl _
  refine ⟨?_, ?_, ?_, ?_, ?_, ?_, ?_, ?_, ?_, ?_⟩
  · intro it hit
    simp only [initState, buildQueue, List.mem_map] at hit
    rcases hit with ⟨f, _, rfl⟩
    rfl
  · intro it hit
    rw [hinfl] at hit
    cases hit
  · intro w hw
    simp only [initState] at hw
    rw [List.eq_of_mem_replicate hw]
    trivial
  · intro r hr
    cases hr
  · intro e he
    cases he
  · rw [hinfl]
    rfl
  · intro f
    rw [show (initState files remap concurrency).workers.flatMap wFetchPaths = [] from
      flatMap_replicate_atLoop wFetchPaths rfl _]
    rfl
  · rw [loadLen, hinfl]
    simp [initState, buildQueue]
  · intro _ hdone
    simp only [initState] at hdone
    have := List.eq_of_mem_replicate hdone
    cases this
  · intro hab
    cases hab

/-- `claimLoop` never changes the abort flag. -/
theorem claimLoop_aborted (s : MState) : (claimLoop s).1.aborted = s.aborted := by
  rcases claimLoop_spec s with ⟨_, hcl⟩ | ⟨_, _, hcl⟩ | ⟨it, rest, _, _, hcl⟩ <;>
    rw [hcl]

/-- `claimLoop` never touches the worker list. -/
theorem claimLoop_workers (s : MState) : (claimLoop s).1.workers = s.workers := by
  rcases claimLoop_spec s with ⟨_, hcl⟩ | ⟨_, _, hcl⟩ | ⟨it, rest, _, _, hcl⟩ <;>
    rw [hcl]

/-- Worker resumptions never change the abort flag. -/
theorem stepWorker_aborted (env : Collaborators) (s : MState) :
    ∀ w : WorkerState, ((stepWorker env s w).1).aborted = s.aborted := by
  intro w
  cases w with
  | atLoop => exact claimLoop_aborted s
  | awaitExists item =>
    cases hex : env.fileExists item.remappedPath
    · simp [stepWorker, hex]
    · simp only [stepWorker, hex, if_true]
      rw [claimLoop_aborted]
      rfl
  | awaitFetch item =>
    cases hdl : env.downloadFile item.file.path
    · simp only [stepWorker, hdl]
      rw [claimLoop_aborted]
      rfl
    · simp [stepWorker, hdl]
  | awaitUpload item blob =>
    cases hup : env.uploadFile blob item.remappedPath
    · simp only [stepWorker, hup]
      rw [claimLoop_aborted]
      rfl
    · simp only [stepWorker, hup]
      rw [claimLoop_aborted]
      rfl
  | done => rfl

/-- Worker resumptions never touch the worker list of the carried state. -/
theorem stepWorker_workers (env : Collaborators) (s : MState) :
    ∀ w : WorkerState, ((stepWorker env s w).1).workers = s.workers := by
  intro w
  cases w with
  | atLoop => exact claimLoop_workers s
  | awaitExists item =>
    cases hex : env.fileExists item.remappedPath
    · simp [stepWorker, hex]
    · simp only [stepWorker, hex, if_true]
      rw [claimLoop_workers]
      rfl
  | awaitFetch item =>
    cases hdl : env.downloadFile item.file.path
    · simp only [stepWorker, hdl]
      rw [claimLoop_workers]
      rfl
    · simp [stepWorker, hdl]
  | awaitUpload item blob =>
    cases hup : env.uploadFile blob item.remappedPath
    · simp only [stepWorker, hup]
      rw [claimLoop_workers]
      rfl
    · simp only [stepWorker, hup]
      rw [claimLoop_workers]
      rfl
  | done => rfl

/-- Scheduler steps never clear the abort flag. -/
theorem stepAction_aborted_mono (env : Collaborators) {s : MState}
    (hab : s.aborted = true) (a : Action) : (stepAction env s a).aborted = true := by
  cases a with
  | work i =>
    cases h : s.workers[i]? with
    | none => simpa [stepAction, applyWork, h] using hab
    | some w =>
      have := stepWorker_aborted env s w
      simp only [stepAction, applyWork, h]
      rw [this]
      exact hab
  | abortCall => rfl

/-- Work steps never change the abort flag at all. -/
theorem applyWork_aborted (env : Collaborators) (s : MState) (i : Nat) :
    (applyWork env s i).aborted = s.aborted := by
  cases h : s.workers[i]? with
  | none => simp [applyWork, h]
  | some w =>
    simp only [applyWork, h]
    exact stepWorker_aborted env s w

/-- A schedule with no `abort()` call leaves the flag down. -/
theorem runSched_aborted (env : Collaborators) :
    ∀ (sched : List Action) (s : MState), Action.abortCall ∉ sched →
      s.aborted = false → (runSched env s sched).aborted = false
  | [], s, _, hab => hab
  | a :: as, s, hnab, hab => by
    have hna : a ≠ Action.abortCall := fun hc => hnab (hc ▸ List.mem_cons_self a as)
    have has : Action.abortCall ∉ as := fun hc => hnab (List.mem_cons_of_mem a hc)
    cases a with
    | work i =>
      exact runSched_aborted env as _ has
        (by simp only [stepAction]; rw [applyWork_aborted]; exact hab)
    | abortCall => exact absurd rfl hna

/-- Along an abort-free schedule the pipeline contents are preserved. -/
theorem count_runSched (env : Collaborators) (remap : Option (List (String × String)))
    (files : List DLCFile) :
    ∀ (sched : List Action) {s : MState}, Inv env remap files s →
      Action.abortCall ∉ sched →
      ∀ x, (loadFiles (runSched env s sched)).count x = (loadFiles s).count x
  | [], _, _, _, _ => rfl
  | a :: as, s, hInv, hnab, x => by
    have has : Action.abortCall ∉ as := fun hc => hnab (List.mem_cons_of_mem a hc)
    cases a with
    | work i =>
      have hstep := invCount_applyWork env remap files hInv i
      have hrec := count_runSched env remap files as hstep.1 has x
      exact hrec.trans (hstep.2 x)
    | abortCall => exact absurd (List.mem_cons_self _ _) hnab

/-- Once every worker has returned, further scheduler actions change nothing
observable: results and trace are frozen and the workers stay returned. -/
theorem stepAction_done_frame (env : Collaborators) {s : MState}
    (hd : allDone s = true) (a : Action) :
    (stepAction env s a).results = s.results ∧
    (stepAction env s a).events = s.events ∧
    allDone (stepAction env s a) = true := by
  cases a with
  | abortCall => exact ⟨rfl, rfl, hd⟩
  | work i =>
    cases h : s.workers[i]? with
    | none =>
      have hF : applyWork env s i = s := by simp [applyWork, h]
      simp only [stepAction]
      rw [hF]
      exact ⟨rfl, rfl, hd⟩
    | some w =>
      have hw : w = WorkerState.done := by
        have hmem := List.getElem?_mem h
        have := List.all_eq_true.mp hd w hmem
        simpa using this
      subst hw
      have hF : applyWork env s i = s := by
        simp only [applyWork, h, stepWorker]
        rw [set_self_of_getElem? s.workers i WorkerState.done h]
      simp only [stepAction]
      rw [hF]
      exact ⟨rfl, rfl, hd⟩

/-- Run-level version of `stepAction_done_frame`. -/
theorem runSched_done_frame (env : Collaborators) :
    ∀ (sched : List Action) {s : MState}, allDone s = true →
      (runSched env s sched).results = s.results ∧
      (runSched env s sched).events = s.events ∧
      allDone (runSched env s sched) = true
  | [], _, hd => ⟨rfl, rfl, hd⟩
  | a :: as, s, hd => by
    have h1 := stepAction_done_frame env hd a
    have h2 := runSched_done_frame env as h1.2.2
    exact ⟨h2.1.trans h1.1, h2.2.1.trans h1.2.1, h2.2.2⟩

/-- `claimLoop` keeps an empty queue empty. -/
theorem claimLoop_queue_nil {s : MState} (h : s.queue = []) :
    (claimLoop s).1.queue = [] := by
  rcases claimLoop_spec s with ⟨_, hcl⟩ | ⟨_, _, hcl⟩ | ⟨it, rest, _, hq, hcl⟩
  · rw [hcl]; exact h
  · rw [hcl]; exact h
  · rw [hq] at h; cases h

/-- Worker resumptions keep an empty queue empty. -/
theorem stepWorker_queue_nil (env : Collaborators) {s : MState} (h : s.queue = []) :
    ∀ w : WorkerState, ((stepWorker env s w).1).queue = [] := by
  intro w
  cases w with
  | atLoop => exact claimLoop_queue_nil h
  | awaitExists item =>
    cases hex : env.fileExists item.remappedPath
    · simp [stepWorker, hex, h]
    · simp only [stepWorker, hex, if_true]
      exact claimLoop_queue_nil h
  | awaitFetch item =>
    cases hdl : env.downloadFile item.file.path
    · simp only [stepWorker, hdl]
      exact claimLoop_queue_nil h
    · simp [stepWorker, hdl, h]
  | awaitUpload item blob =>
    cases hup : env.uploadFile blob item.remappedPath
    · simp only [stepWorker, hup]
      exact claimLoop_queue_nil h
    · simp only [stepWorker, hup]
      exact claimLoop_queue_nil h
  | done => exact h

/-- Scheduler steps keep an empty queue empty. -/
theorem stepAction_queue_nil (env : Collaborators) {s : MState} (h : s.queue = [])
    (a : Action) : (stepAction env s a).queue = [] := by
  cases a with
  | abortCall => rfl
  | work i =>
    cases hw : s.workers[i]? with
    | none => simpa [stepAction, applyWork, hw] using h
    | some w =>
      simp only [stepAction, applyWork, hw]
      exact stepWorker_queue_nil env h w

/-- Whole schedules keep an empty queue empty. -/
theorem runSched_queue_nil (env : Collaborators) :
    ∀ (sched : List Action) {s : MState}, s.queue = [] →
      (runSched env s sched).queue = []
  | [], _, h => h
  | a :: as, s, h => runSched_queue_nil env as (stepAction_queue_nil env h a)

/-- Scheduler steps preserve the worker-pool size. -/
theorem stepAction_workers_length (env : Collaborators) (s : MState) (a : Action) :
    (stepAction env s a).workers.length = s.workers.length := by
  cases a with
  | abortCall => rfl
  | work i =>
    cases h : s.workers[i]? with
    | none => simp [stepAction, applyWork, h]
    | some w =>
      simp only [stepAction, applyWork, h]
      rw [List.length_set]

/-- Whole schedules preserve the worker-pool size. -/
theorem runSched_workers_length (env : Collaborators) :
    ∀ (sched : List Action) (s : MState),
      (runSched env s sched).workers.length = s.workers.length
  | [], _ => rfl
  | a :: as, s =>
    (runSched_workers_length env as _).trans (stepAction_workers_length env s a)

/-- With no workers nothing at all happens: results, trace and pool are
unchanged by any schedule. -/
theorem runSched_workers_nil (env : Collaborators) :
    ∀ (sched : List Action) {s : MState}, s.workers = [] →
      (runSched env s sched).results = s.results ∧
      (runSched env s sched).events = s.events ∧
      (runSched env s sched).workers = []
  | [], _, h => ⟨rfl, rfl, h⟩
  | a :: as, s, h => by
    cases a with
    | work i =>
      have hF : stepAction env s (Action.work i) = s := by
        simp [stepAction, applyWork, h]
      have hrun : runSched env s (Action.work i :: as) = runSched env s as := by
        show runSched env (stepAction env s (Action.work i)) as = runSched env s as
        rw [hF]
      rw [hrun]
      exact runSched_workers_nil env as h
    | abortCall =>
      exact runSched_workers_nil env as (s := stepAction env s Action.abortCall) h

/-- A `flatMap` over a pool of returned workers is empty. -/
theorem flatMap_all_done {α : Type} (f : WorkerState → List α)
    (hf : f WorkerState.done = []) :
    ∀ ws : List WorkerState, ws.all (fun w => w = WorkerState.done) = true →
      ws.flatMap f = []
  | [], _ => rfl
  | w :: ws, hd => by
    have h1 : w = WorkerState.done := by
      have := List.all_eq_true.mp hd w (List.mem_cons_self w ws)
      simpa using this
    have h2 : ws.all (fun w => w = WorkerState.done) = true :=
      List.all_eq_true.mpr fun x hx =>
        List.all_eq_true.mp hd x (List.mem_cons_of_mem w hx)
    subst h1
    simp [List.flatMap_cons, hf, flatMap_all_done f hf ws h2]

/-- The queue built by `process` carries exactly the input files, in order. -/
theorem buildQueue_files (remap : Option (List (String × String)))
    (files : List DLCFile) :
    (buildQueue remap files).map (fun it => it.file) = files := by
  induction files with
  | nil => rfl
  | cons f fs ih =>
    simp only [buildQueue, List.map_cons] at ih ⊢
    rw [ih]

/-- Every recorded outcome is terminal. -/
theorem resultOK_terminal {env : Collaborators} {remap : Option (List (String × String))}
    {r : DownloadResult} (h : resultOK env remap r) :
    r.status = DownloadStatus.completed ∨ r.status = DownloadStatus.error := by
  simp only [resultOK] at h
  split at h
  · exact Or.inl h.1
  · split at h
    · exact Or.inr h.1
    · split at h
      · exact Or.inl h.1
      · exact Or.inr h.1

/-- Two mutually exclusive, jointly exhaustive predicates count the whole
list. -/
theorem countP_two_cases {α : Type} (p q : α → Bool) :
    ∀ l : List α,
      (∀ a ∈ l, (p a = true ∧ q a = false) ∨ (p a = false ∧ q a = true)) →
      l.countP p + l.countP q = l.length
  | [], _ => rfl
  | x :: xs, h => by
    have hx := h x (List.mem_cons_self x xs)
    have ih := countP_two_cases p q xs fun a ha => h a (List.mem_cons_of_mem x ha)
    simp only [List.countP_cons, List.length_cons]
    rcases hx with ⟨h1, h2⟩ | ⟨h1, h2⟩ <;> simp only [h1, h2] <;> simp <;> omega

/-- Once `abort()` has run, the attempted set is frozen: scheduler actions
only move items from in-flight to recorded. -/
theorem stepAction_attempted_frozen (env : Collaborators)
    (remap : Option (List (String × String))) (files : List DLCFile) {s : MState}
    (hInv : Inv env remap files s) (hab : s.aborted = true) (a : Action) :
    ∀ x, (attemptedFiles (stepAction env s a)).count x = (attemptedFiles s).count x := by
  intro x
  have hq : s.queue = [] := hInv.abort_empty hab
  cases a with
  | abortCall => rfl
  | work i =>
    have hc := (invCount_applyWork env remap files hInv i).2 x
    have hq' : (applyWork env s i).queue = [] := stepAction_queue_nil env hq (Action.work i)
    simp only [stepAction]
    simp only [loadFiles, attemptedFiles, List.count_append, hq, hq', List.map_nil,
      List.count_nil] at hc ⊢
    omega

/-- Run-level version of `stepAction_attempted_frozen`. -/
theorem runSched_attempted_frozen (env : Collaborators)
    (remap : Option (List (String × String))) (files : List DLCFile) :
    ∀ (sched : List Action) {s : MState}, Inv env remap files s → s.aborted = true →
      ∀ x, (attemptedFiles (runSched env s sched)).count x = (attemptedFiles s).count x
  | [], _, _, _, _ => rfl
  | a :: as, s, hInv, hab, x => by
    have hInv' := inv_stepAction env remap files hInv a
    have hab' : (stepAction env s a).aborted = true := stepAction_aborted_mono env hab a
    exact (runSched_attempted_frozen env remap files as hInv' hab' x).trans
      (stepAction_attempted_frozen env remap files hInv hab a x)

/-- An abort-free schedule that drives every worker to completion satisfies
the invariant, leaves the flag down, drains the queue, and delivers exactly
one result per input file (as a multiset). -/
theorem run_complete_spec (env : Collaborators)
    (remap : Option (List (String × String))) (files : List DLCFile)
    (concurrency : Nat) (sched : List Action)
    (hc : 1 ≤ concurrency) (hnab : Action.abortCall ∉ sched)
    (hdone : allDone (runSched env (initState files remap concurrency) sched) = true) :
    Inv env remap files (runSched env (initState files remap concurrency) sched) ∧
    (runSched env (initState files remap concurrency) sched).aborted = false ∧
    (runSched env (initState files remap concurrency) sched).queue = [] ∧
    List.Perm
      ((runSched env (initState files remap concurrency) sched).results.map
        fun r => r.file) files := by
  have hInv0 := inv_initState env remap files concurrency
  have hInv := inv_runSched env remap files sched hInv0
  have hab : (runSched env (initState files remap concurrency) sched).aborted = false :=
    runSched_aborted env sched _ hnab rfl
  have hinfl :
      inflightFiles (runSched env (initState files remap concurrency) sched).workers
        = [] :=
    flatMap_all_done wFiles rfl _ hdone
  have hqnil : (runSched env (initState files remap concurrency) sched).queue = [] := by
    by_cases hf : files = []
    · have h0 : (initState files remap concurrency).queue = [] := by
        rw [hf]
        rfl
      exact runSched_queue_nil env sched h0
    · have hlen1 : 1 ≤ files.length := by
        cases files with
        | nil => exact absurd rfl hf
        | cons f fs => simp
      have hlen :
          1 ≤ (runSched env (initState files remap concurrency) sched).workers.length := by
        rw [runSched_workers_length env sched]
        have h1 : (initState files remap concurrency).workers.length =
            min concurrency files.length := by
          simp [initState, buildQueue]
        rw [h1]
        exact Nat.le_min.mpr ⟨hc, hlen1⟩
      have hne : (runSched env (initState files remap concurrency) sched).workers ≠ [] := by
        intro hcon
        rw [hcon] at hlen
        cases hlen
      rcases List.exists_mem_of_ne_nil _ hne with ⟨w, hw⟩
      have hwd : w = WorkerState.done := by
        have := List.all_eq_true.mp hdone w hw
        simpa using this
      subst hwd
      exact hInv.done_empty hab hw
  refine ⟨hInv, hab, hqnil, ?_⟩
  apply List.perm_iff_count.mpr
  intro x
  have hcount := count_runSched env remap files sched hInv0 hnab x
  have hinit : (loadFiles (initState files remap concurrency)).count x = files.count x := by
    have h0 : inflightFiles (initState files remap concurrency).workers = [] :=
      flatMap_replicate_atLoop wFiles rfl _
    have h1 : (initState files remap concurrency).queue = buildQueue remap files := rfl
    have h2 : (initState files remap concurrency).results = ([] : List DownloadResult) :=
      rfl
    simp only [loadFiles, List.count_append, h0, List.count_nil, h1, h2,
      buildQueue_files, List.map_nil]
    omega
  have hfin : (loadFiles (runSched env (initState files remap concurrency) sched)).count x
      = ((runSched env (initState files remap concurrency) sched).results.map
          fun r => r.file).count x := by
    simp only [loadFiles, List.count_append, hinfl, List.count_nil, hqnil, List.map_nil]
    omega
  rw [← hfin, hcount, hinit]

/-- During a run (before `onComplete`) the trace holds no `onComplete` event. -/
theorem no_onComplete_during_run {env : Collaborators}
    {remap : Option (List (String × String))} {n : Nat} {es : List DMEvent}
    (h : ∀ e ∈ es, eventOK env remap n e) : es.countP isOnCompleteEv = 0 := by
  rw [List.countP_eq_zero]
  intro e he hP
  cases e <;> simp [isOnCompleteEv] at hP
  exact h _ he

/-- An outcome for a file whose fetch fails (and whose destination is fresh)
is an error carrying the thrown message. -/
theorem resultOK_fetch_error {env : Collaborators}
    {remap : Option (List (String × String))} {r : DownloadResult} {p m : String}
    (hres : resultOK env remap r) (hp : r.file.path = p)
    (hex : env.fileExists (remapLookup remap p) = false)
    (hdl : env.downloadFile p = Except.error m) :
    r.status = DownloadStatus.error ∧ r.error = some m := by
  simp only [resultOK, hp] at hres
  rw [hex] at hres
  simp only [Bool.false_eq_true, if_false] at hres
  rw [hdl] at hres
  exact hres

/-- An outcome for a file whose storage write fails (fetch succeeding, its
destination fresh) is an error carrying the thrown message. -/
theorem resultOK_upload_error {env : Collaborators}
    {remap : Option (List (String × String))} {r : DownloadResult} {p m : String}
    {b : Nat}
    (hres : resultOK env remap r) (hp : r.file.path = p)
    (hex : env.fileExists (remapLookup remap p) = false)
    (hdl : env.downloadFile p = Except.ok b)
    (hup : env.uploadFile b (remapLookup remap p) = Except.error m) :
    r.status = DownloadStatus.error ∧ r.error = some m := by
  simp only [resultOK, hp] at hres
  rw [hex] at hres
  simp only [Bool.false_eq_true, if_false] at hres
  rw [hdl] at hres
  have hres' : (match env.uploadFile b (remapLookup remap p) with
      | Except.ok _ => r.status = DownloadStatus.completed ∧ r.error = none
      | Except.error m' => r.status = DownloadStatus.error ∧ r.error = some m') := hres
  rw [hup] at hres'
  exact hres'

/-- An outcome for a file whose destination already exists is a skip-complete. -/
theorem resultOK_exists {env : Collaborators}
    {remap : Option (List (String × String))} {r : DownloadResult} {p : String}
    (hres : resultOK env remap r) (hp : r.file.path = p)
    (hex : env.fileExists (remapLookup remap p) = true) :
    r.status = DownloadStatus.completed ∧ r.error = none := by
  simp only [resultOK, hp] at hres
  rw [hex] at hres
  simpa using hres

/-- For a file whose destination already exists, the trace holds neither an
API download nor a storage upload on its behalf. -/
theorem no_transfer_events_when_exists {env : Collaborators}
    {remap : Option (List (String × String))} {n : Nat} {es : List DMEvent}
    (h : ∀ e ∈ es, eventOK env remap n e) (p : String)
    (hex : env.fileExists (remapLookup remap p) = true) :
    es.countP (isFetchFor p) = 0 ∧ es.countP (isUploadFor p) = 0 := by
  constructor
  · rw [List.countP_eq_zero]
    intro e he hP
    cases e <;> simp [isFetchFor] at hP
    case apiDownloadCall g q =>
      have hok := h _ he
      rw [hP] at hok
      rw [hok.2] at hex
      cases hex
  · rw [List.countP_eq_zero]
    intro e he hP
    cases e <;> simp [isUploadFor] at hP
    case uploadFileCall g d =>
      have hok := h _ he
      rw [hP] at hok
      have h2 := hok.2
      rw [hok.1] at h2
      rw [h2] at hex
      cases hex

/-- With an empty worker pool, `process` resolves at once to the empty
Outcome list, invoking `onComplete([])` and nothing else. -/
theorem processRun_no_workers (env : Collaborators) (files : List DLCFile)
    (remap : Option (List (String × String))) (concurrency : Nat)
    (sched : List Action) (hw : (initState files remap concurrency).workers = []) :
    processRun env files remap concurrency sched =
      some ([], [DMEvent.onComplete []]) := by
  have hrun := runSched_workers_nil env sched hw
  have hd : allDone (runSched env (initState files remap concurrency) sched) = true := by
    rw [allDone, hrun.2.2]
    rfl
  have hres : (runSched env (initState files remap concurrency) sched).results = [] :=
    hrun.1
  have hevs : (runSched env (initState files remap concurrency) sched).events = [] :=
    hrun.2.1
  simp only [processRun, hd, if_true, hres, hevs]
  rfl

/-- C1: for every run of `ConcurrentDownloadManager.process` on a list of
files with `concurrency ≥ 1` in which `abort()` is never called and the
workers drain, the resolved result list contains exactly one Outcome per
input file (its files are a permutation of the inputs — no duplicates, no
omissions), and the number of completed entries plus the number of error
entries equals the number of input files. -/
theorem C1_one_outcome_per_file (env : Collaborators)
    (remap : Option (List (String × String))) (files : List DLCFile)
    (concurrency : Nat) (sched : List Action)
    (hc : 1 ≤ concurrency) (hnab : Action.abortCall ∉ sched)
    (hdone : allDone (runSched env (initState files remap concurrency) sched) = true) :
    ∃ res evs, processRun env files remap concurrency sched = some (res, evs) ∧
      List.Perm (res.map fun r => r.file) files ∧
      (res.countP fun r => r.status = DownloadStatus.completed) +
        (res.countP fun r => r.status = DownloadStatus.error) = files.length := by
  have hspec := run_complete_spec env remap files concurrency sched hc hnab hdone
  refine ⟨(runSched env (initState files remap concurrency) sched).results,
    (runSched env (initState files remap concurrency) sched).events ++
      [DMEvent.onComplete (runSched env (initState files remap concurrency) sched).results],
    ?_, hspec.2.2.2, ?_⟩
  · simp [processRun, hdone]
  · have hterm : ∀ r ∈ (runSched env (initState files remap concurrency) sched).results,
        r.status = DownloadStatus.completed ∨ r.status = DownloadStatus.error :=
      fun r hr => resultOK_terminal (hspec.1.results_ok r hr)
    have hcnt := countP_two_cases
      (fun r : DownloadResult => decide (r.status = DownloadStatus.completed))
      (fun r : DownloadResult => decide (r.status = DownloadStatus.error))
      (runSched env (initState files remap concurrency) sched).results
      (fun r hr => by rcases hterm r hr with h | h <;> simp [h])
    have hlen : (runSched env (initState files remap concurrency) sched).results.length
        = files.length := by
      have := hspec.2.2.2.length_eq
      rw [List.length_map] at this
      exact this
    omega

/-- C1 witness: two files, two workers, a drain schedule. -/
theorem C1_one_outcome_per_file_witness :
    ∃ res evs,
      processRun envAllOk [fileA, fileB] none 2
        (List.replicate 8 (Action.work 0) ++ [Action.work 1]) = some (res, evs) ∧
      List.Perm (res.map fun r => r.file) [fileA, fileB] ∧
      (res.countP fun r => r.status = DownloadStatus.completed) +
        (res.countP fun r => r.status = DownloadStatus.error) = [fileA, fileB].length :=
  C1_one_outcome_per_file envAllOk none [fileA, fileB] 2
    (List.replicate 8 (Action.work 0) ++ [Action.work 1])
    (by decide) (by decide) (by decide)

/-- C2: if the fetch collaborator or the storage collaborator fails for one
file (its destination being fresh), that file's Outcome is recorded as
`error` with the thrown message, every other file still receives its own
terminal Outcome (one entry per input file), the failure never rejects
`process` (the run still resolves with a full result list), and
`onComplete` fires exactly once. -/
theorem C2_single_failure_isolated (env : Collaborators)
    (remap : Option (List (String × String))) (files : List DLCFile)
    (concurrency : Nat) (sched : List Action)
    (hc : 1 ≤ concurrency) (hnab : Action.abortCall ∉ sched)
    (hdone : allDone (runSched env (initState files remap concurrency) sched) = true)
    (f0 : DLCFile) (m : String) (hf0 : f0 ∈ files)
    (hex : env.fileExists (remapLookup remap f0.path) = false)
    (hfail : env.downloadFile f0.path = Except.error m ∨
      ∃ b, env.downloadFile f0.path = Except.ok b ∧
        env.uploadFile b (remapLookup remap f0.path) = Except.error m) :
    ∃ res evs, processRun env files remap concurrency sched = some (res, evs) ∧
      List.Perm (res.map fun r => r.file) files ∧
      (∀ r ∈ res, r.file.path = f0.path →
        r.status = DownloadStatus.error ∧ r.error = some m) ∧
      (∀ r ∈ res, r.status = DownloadStatus.completed ∨
        r.status = DownloadStatus.error) ∧
      (∀ g ∈ files, ∃ r ∈ res, r.file = g) ∧
      evs.countP isOnCompleteEv = 1 := by
  have hspec := run_complete_spec env remap files concurrency sched hc hnab hdone
  refine ⟨(runSched env (initState files remap concurrency) sched).results,
    (runSched env (initState files remap concurrency) sched).events ++
      [DMEvent.onComplete (runSched env (initState files remap concurrency) sched).results],
    ?_, hspec.2.2.2, ?_, ?_, ?_, ?_⟩
  · simp [processRun, hdone]
  · intro r hr hp
    rcases hfail with hdl | ⟨b, hdl, hup⟩
    · exact resultOK_fetch_error (hspec.1.results_ok r hr) hp hex hdl
    · exact resultOK_upload_error (hspec.1.results_ok r hr) hp hex hdl hup
  · exact fun r hr => resultOK_terminal (hspec.1.results_ok r hr)
  · intro g hg
    have : g ∈ (runSched env (initState files remap concurrency) sched).results.map
        (fun r => r.file) := hspec.2.2.2.mem_iff.mpr hg
    rcases List.mem_map.mp this with ⟨r, hr, hrg⟩
    exact ⟨r, hr, hrg⟩
  · rw [List.countP_append,
      no_onComplete_during_run (n := files.length) hspec.1.events_ok]
    rfl

set_option maxRecDepth 8000 in
/-- C2 witness, both halves of the claim: among five files, a fetch failure
for `c.png` (first scenario) and a storage-write failure for `c.png`
(second scenario) each yield one error entry carrying the thrown message
while every other file completes and `onComplete` fires once. -/
theorem C2_single_failure_isolated_witness :
    (∃ res evs,
      processRun envOneFetchFailure [fileA, fileB, fileC, fileD, fileE] none 2
        (List.replicate 20 (Action.work 0) ++ [Action.work 1]) = some (res, evs) ∧
      List.Perm (res.map fun r => r.file) [fileA, fileB, fileC, fileD, fileE] ∧
      (∀ r ∈ res, r.file.path = fileC.path →
        r.status = DownloadStatus.error ∧ r.error = some "File not found.") ∧
      (∀ r ∈ res, r.status = DownloadStatus.completed ∨
        r.status = DownloadStatus.error) ∧
      (∀ g ∈ [fileA, fileB, fileC, fileD, fileE], ∃ r ∈ res, r.file = g) ∧
      evs.countP isOnCompleteEv = 1) ∧
    (∃ res evs,
      processRun envOneUploadFailure [fileA, fileB, fileC, fileD, fileE] none 2
        (List.replicate 20 (Action.work 0) ++ [Action.work 1]) = some (res, evs) ∧
      List.Perm (res.map fun r => r.file) [fileA, fileB, fileC, fileD, fileE] ∧
      (∀ r ∈ res, r.file.path = fileC.path →
        r.status = DownloadStatus.error ∧
          r.error = some "EACCES: permission denied") ∧
      (∀ r ∈ res, r.status = DownloadStatus.completed ∨
        r.status = DownloadStatus.error) ∧
      (∀ g ∈ [fileA, fileB, fileC, fileD, fileE], ∃ r ∈ res, r.file = g) ∧
      evs.countP isOnCompleteEv = 1) :=
  ⟨C2_single_failure_isolated envOneFetchFailure none
      [fileA, fileB, fileC, fileD, fileE] 2
      (List.replicate 20 (Action.work 0) ++ [Action.work 1])
      (by decide) (by decide) (by decide) fileC "File not found."
      (by decide) (by decide) (Or.inl rfl),
    C2_single_failure_isolated envOneUploadFailure none
      [fileA, fileB, fileC, fileD, fileE] 2
      (List.replicate 20 (Action.work 0) ++ [Action.work 1])
      (by decide) (by decide) (by decide) fileC "EACCES: permission denied"
      (by decide) (by decide) (Or.inr ⟨7, rfl, rfl⟩)⟩

/-- C3 counterexample: on a successful one-file run (`concurrency` 1, all
collaborators succeeding), the single `onProgress` snapshot reports
`totalFiles = 0` — not the input count 1 — and `completedFiles +
failedFiles = 0 ≠ 1`; `reportProgress` runs only when an item is claimed and
skips the claimed in-flight item, so neither "totalFiles always equals the
number of input files" nor "the last onProgress call reports completedFiles
+ failedFiles == n" holds. -/
theorem C3_progress_counterexample :
    processRun envAllOk [fileA] none 1
      [Action.work 0, Action.work 0, Action.work 0, Action.work 0] =
      some ([{ file := fileA, status := DownloadStatus.completed, error := none }],
        [DMEvent.onProgress
          { totalFiles := 0, completedFiles := 0, failedFiles := 0,
            currentFile := some "a.png", bytesDownloaded := 0, totalBytes := 0 },
         DMEvent.fileExistsCall "a.png" "a.png",
         DMEvent.apiDownloadCall "a.png" "a.png",
         DMEvent.uploadFileCall "a.png" "a.png",
         DMEvent.onFileComplete "a.png" DownloadStatus.completed,
         DMEvent.onComplete
           [{ file := fileA, status := DownloadStatus.completed, error := none }]]) ∧
    (0 : Nat) ≠ [fileA].length := by
  exact ⟨by decide, by decide⟩

/-- C3 (amended): `onProgress` is invoked exactly once per claimed item — at
its transition to `downloading` — so on an abort-free completed run it fires
exactly `n` times; each snapshot is computed from the unclaimed queue and
the recorded results only (the claimed in-flight item is counted in
neither), so every reported snapshot satisfies `completedFiles + failedFiles
≤ n - 1` and `totalFiles ≤ n - 1`; in particular no call — the last
included — reports `completedFiles + failedFiles = n`. -/
theorem C3_progress_amended (env : Collaborators)
    (remap : Option (List (String × String))) (files : List DLCFile)
    (concurrency : Nat) (sched : List Action)
    (hc : 1 ≤ concurrency) (hnab : Action.abortCall ∉ sched)
    (hdone : allDone (runSched env (initState files remap concurrency) sched) = true) :
    ∃ res evs, processRun env files remap concurrency sched = some (res, evs) ∧
      evs.countP isOnProgress = files.length ∧
      ∀ p, DMEvent.onProgress p ∈ evs →
        p.completedFiles + p.failedFiles + 1 ≤ files.length ∧
        p.totalFiles + 1 ≤ files.length := by
  have hspec := run_complete_spec env remap files concurrency sched hc hnab hdone
  refine ⟨(runSched env (initState files remap concurrency) sched).results,
    (runSched env (initState files remap concurrency) sched).events ++
      [DMEvent.onComplete (runSched env (initState files remap concurrency) sched).results],
    ?_, ?_, ?_⟩
  · simp [processRun, hdone]
  · have hinfl : (runSched env (initState files remap concurrency) sched).workers.flatMap
        wItems = [] := flatMap_all_done wItems rfl _ hdone
    have hcp := hspec.1.count_progress
    have hlen : (runSched env (initState files remap concurrency) sched).results.length
        = files.length := by
      have := hspec.2.2.2.length_eq
      rw [List.length_map] at this
      exact this
    have hone : List.countP isOnProgress
        [DMEvent.onComplete
          (runSched env (initState files remap concurrency) sched).results] = 0 := by
      simp [isOnProgress]
    rw [List.countP_append, hone]
    simp only [inflightItems, hinfl, List.length_nil] at hcp
    omega
  · intro p hp
    rcases List.mem_append.mp hp with hold | hnew
    · exact hspec.1.events_ok _ hold
    · simp only [List.mem_singleton] at hnew
      cases hnew

set_option maxRecDepth 8000 in
/-- C3 amended witness: two files, one worker, drained sequentially. -/
theorem C3_progress_amended_witness :
    ∃ res evs,
      processRun envAllOk [fileA, fileB] none 1
        (List.replicate 8 (Action.work 0)) = some (res, evs) ∧
      evs.countP isOnProgress = [fileA, fileB].length ∧
      ∀ p, DMEvent.onProgress p ∈ evs →
        p.completedFiles + p.failedFiles + 1 ≤ [fileA, fileB].length ∧
        p.totalFiles + 1 ≤ [fileA, fileB].length :=
  C3_progress_amended envAllOk none [fileA, fileB] 1 (List.replicate 8 (Action.work 0))
    (by decide) (by decide) (by decide)

/-- C4: after `abort()`, no new queue items are claimed — the files of the
final result list are exactly the items attempted (claimed or recorded) at
the moment of the abort; every already-claimed item still reaches a terminal
status; `onComplete` still fires exactly once with those outcomes
(unattempted inputs are absent); and an `abort()` on an idle or
already-completed manager (one whose workers have all returned, including
the empty pool) changes neither the results nor the trace of any subsequent
schedule. -/
theorem C4_abort_no_new_claims (env : Collaborators)
    (remap : Option (List (String × String))) (files : List DLCFile)
    (concurrency : Nat) (pre post : List Action)
    (hdone : allDone (runSched env (initState files remap concurrency)
      (pre ++ Action.abortCall :: post)) = true) :
    ∃ res evs, processRun env files remap concurrency (pre ++ Action.abortCall :: post)
        = some (res, evs) ∧
      List.Perm (res.map fun r => r.file)
        (attemptedFiles (runSched env (initState files remap concurrency) pre)) ∧
      (∀ r ∈ res, r.status = DownloadStatus.completed ∨
        r.status = DownloadStatus.error) ∧
      evs.countP isOnCompleteEv = 1 ∧
      (∀ s : MState, allDone s = true →
        (runSched env s (Action.abortCall :: post)).results =
          (runSched env s post).results ∧
        (runSched env s (Action.abortCall :: post)).events =
          (runSched env s post).events) := by
  have hInv0 := inv_initState env remap files concurrency
  have hsplit : runSched env (initState files remap concurrency)
      (pre ++ Action.abortCall :: post) =
      runSched env
        (stepAction env (runSched env (initState files remap concurrency) pre)
          Action.abortCall) post := by
    simp [runSched, List.foldl_append]
  have hInvPre := inv_runSched env remap files pre hInv0
  have hInvAb := inv_abort env remap files hInvPre
  have hInvFin := inv_runSched env remap files post hInvAb
  rw [hsplit] at hdone
  have hfrozen := runSched_attempted_frozen env remap files post hInvAb rfl
  refine ⟨(runSched env
      (stepAction env (runSched env (initState files remap concurrency) pre)
        Action.abortCall) post).results,
    (runSched env
      (stepAction env (runSched env (initState files remap concurrency) pre)
        Action.abortCall) post).events ++
      [DMEvent.onComplete (runSched env
        (stepAction env (runSched env (initState files remap concurrency) pre)
          Action.abortCall) post).results],
    ?_, ?_, ?_, ?_, ?_⟩
  · simp only [processRun, hsplit, hdone, if_true]
  · apply List.perm_iff_count.mpr
    intro x
    have h1 := hfrozen x
    have h2 : attemptedFiles (stepAction env
        (runSched env (initState files remap concurrency) pre) Action.abortCall) =
        attemptedFiles (runSched env (initState files remap concurrency) pre) := rfl
    rw [h2] at h1
    have hinfl : inflightFiles (runSched env
        (stepAction env (runSched env (initState files remap concurrency) pre)
          Action.abortCall) post).workers = [] :=
      flatMap_all_done wFiles rfl _ hdone
    simp only [attemptedFiles, List.count_append, hinfl, List.count_nil] at h1
    simp only [attemptedFiles, List.count_append]
    omega
  · exact fun r hr => resultOK_terminal (hInvFin.results_ok r hr)
  · rw [List.countP_append,
      no_onComplete_during_run (n := files.length) hInvFin.events_ok]
    rfl
  · intro s hd
    have h1 := stepAction_done_frame env hd Action.abortCall
    have h2 := runSched_done_frame env post (s := stepAction env s Action.abortCall)
      h1.2.2
    have h3 := runSched_done_frame env post (s := s) hd
    exact ⟨(h2.1.trans h1.1).trans h3.1.symm, (h2.2.1.trans h1.2.1).trans h3.2.1.symm⟩

set_option maxRecDepth 8000 in
/-- C4 witness: abort after two of five items have been claimed
(`concurrency` 2): the two claimed items finish, the other three are never
attempted, `onComplete` fires once. -/
theorem C4_abort_no_new_claims_witness :
    ∃ res evs,
      processRun envAllOk [fileA, fileB, fileC, fileD, fileE] none 2
        ([Action.work 0, Action.work 1] ++ Action.abortCall ::
          (List.replicate 3 (Action.work 0) ++ List.replicate 3 (Action.work 1)))
        = some (res, evs) ∧
      List.Perm (res.map fun r => r.file)
        (attemptedFiles (runSched envAllOk
          (initState [fileA, fileB, fileC, fileD, fileE] none 2)
          [Action.work 0, Action.work 1])) ∧
      (∀ r ∈ res, r.status = DownloadStatus.completed ∨
        r.status = DownloadStatus.error) ∧
      evs.countP isOnCompleteEv = 1 ∧
      (∀ s : MState, allDone s = true →
        (runSched envAllOk s (Action.abortCall ::
          (List.replicate 3 (Action.work 0) ++ List.replicate 3 (Action.work 1)))).results =
          (runSched envAllOk s
            (List.replicate 3 (Action.work 0) ++ List.replicate 3 (Action.work 1))).results ∧
        (runSched envAllOk s (Action.abortCall ::
          (List.replicate 3 (Action.work 0) ++ List.replicate 3 (Action.work 1)))).events =
          (runSched envAllOk s
            (List.replicate 3 (Action.work 0) ++ List.replicate 3 (Action.work 1))).events) :=
  C4_abort_no_new_claims envAllOk none [fileA, fileB, fileC, fileD, fileE] 2
    [Action.work 0, Action.work 1]
    (List.replicate 3 (Action.work 0) ++ List.replicate 3 (Action.work 1))
    (by decide)

/-- C5 counterexample: with `concurrency = 0` (< 1), nothing is thrown and
no `ConfigurationError` exists — on a one-file bundle `process` simply
starts zero workers and resolves to the empty Outcome list, invoking
`onComplete([])`, contrary to the claim that a fatal error prevents any
batch and any Outcome list. -/
theorem C5_no_validation_counterexample :
    (0 : Nat) < 1 ∧
    processRun envAllOk [fileA] none 0 [] = some ([], [DMEvent.onComplete []]) :=
  ⟨by decide, by decide⟩

/-- C5 (amended): the constructor performs no validation.  With
`concurrency < 1` (zero workers), `process` throws nothing, starts no
worker, performs no collaborator call and no per-file callback, and resolves
to the empty Outcome list after invoking `onComplete([])` — regardless of
the input files. -/
theorem C5_no_validation_amended (env : Collaborators) (files : List DLCFile)
    (remap : Option (List (String × String))) (sched : List Action) :
    processRun env files remap 0 sched = some ([], [DMEvent.onComplete []]) :=
  processRun_no_workers env files remap 0 sched (by simp [initState])

/-- C6: for every file whose destination path already exists according to
the storage collaborator, the recorded Outcome is `completed` (with no
error), and neither the network fetch nor the storage upload is ever invoked
on its behalf — existence alone suffices. -/
theorem C6_idempotent_skip (env : Collaborators)
    (remap : Option (List (String × String))) (files : List DLCFile)
    (concurrency : Nat) (sched : List Action)
    (hc : 1 ≤ concurrency) (hnab : Action.abortCall ∉ sched)
    (hdone : allDone (runSched env (initState files remap concurrency) sched) = true)
    (p : String) (hex : env.fileExists (remapLookup remap p) = true) :
    ∃ res evs, processRun env files remap concurrency sched = some (res, evs) ∧
      (∀ r ∈ res, r.file.path = p →
        r.status = DownloadStatus.completed ∧ r.error = none) ∧
      (∀ g ∈ files, g.path = p →
        ∃ r ∈ res, r.file = g ∧ r.status = DownloadStatus.completed) ∧
      evs.countP (isFetchFor p) = 0 ∧
      evs.countP (isUploadFor p) = 0 := by
  have hspec := run_complete_spec env remap files concurrency sched hc hnab hdone
  have hnoev := no_transfer_events_when_exists (n := files.length)
    hspec.1.events_ok p hex
  refine ⟨(runSched env (initState files remap concurrency) sched).results,
    (runSched env (initState files remap concurrency) sched).events ++
      [DMEvent.onComplete (runSched env (initState files remap concurrency) sched).results],
    ?_, ?_, ?_, ?_, ?_⟩
  · simp [processRun, hdone]
  · intro r hr hp
    exact resultOK_exists (hspec.1.results_ok r hr) hp hex
  · intro g hg hp
    have hmem : g ∈ (runSched env (initState files remap concurrency) sched).results.map
        (fun r => r.file) := hspec.2.2.2.mem_iff.mpr hg
    rcases List.mem_map.mp hmem with ⟨r, hr, hrg⟩
    have hpath : r.file.path = p := by rw [hrg, hp]
    exact ⟨r, hr, hrg, (resultOK_exists (hspec.1.results_ok r hr) hpath hex).1⟩
  · rw [List.countP_append, hnoev.1]
    simp [isFetchFor]
  · rw [List.countP_append, hnoev.2]
    simp [isUploadFor]

set_option maxRecDepth 8000 in
/-- C6 witness: the destination of `a.png` already exists; its outcome is a
skip-complete and no fetch or upload is issued for it. -/
theorem C6_idempotent_skip_witness :
    ∃ res evs,
      processRun envSkipA [fileA, fileB] none 1
        (List.replicate 8 (Action.work 0)) = some (res, evs) ∧
      (∀ r ∈ res, r.file.path = "a.png" →
        r.status = DownloadStatus.completed ∧ r.error = none) ∧
      (∀ g ∈ [fileA, fileB], g.path = "a.png" →
        ∃ r ∈ res, r.file = g ∧ r.status = DownloadStatus.completed) ∧
      evs.countP (isFetchFor "a.png") = 0 ∧
      evs.countP (isUploadFor "a.png") = 0 :=
  C6_idempotent_skip envSkipA none [fileA, fileB] 1 (List.replicate 8 (Action.work 0))
    (by decide) (by decide) (by decide) "a.png" (by decide)

/-- `List.lookup` only returns stored values. -/
theorem lookup_mem {k v : String} : ∀ {table : List (String × String)},
    table.lookup k = some v → (k, v) ∈ table
  | [], h => by simp at h
  | (a, b) :: t, h => by
    simp only [List.lookup] at h
    cases hak : k == a
    · rw [hak] at h
      exact List.mem_cons_of_mem _ (lookup_mem h)
    · rw [hak] at h
      have h1 : k = a := by simpa using hak
      have h2 : b = v := by simpa using h
      subst h1
      subst h2
      exact List.mem_cons_self _ _

/-- C7: `findRemappedPath` tolerates three textual encodings of the same
logical path — for any requested path, the lookup succeeds whenever the
table contains (with a genuine, non-empty destination) the path as given,
its percent-decoded form, or its percent-encoded form; the code falls back
through the three probes in that order before failing. -/
theorem C7_lookup_tolerates_encodings (table : List (String × String))
    (htruthy : ∀ kv ∈ table, kv.2 ≠ "") (p : String)
    (hhit : (table.lookup p).isSome = true ∨
      (∃ d, decodeURIComponent p = some d ∧ (table.lookup d).isSome = true) ∨
      (table.lookup (encodeURIComponent p)).isSome = true) :
    (findRemappedPath table p).isSome = true := by
  have hjs : ∀ k, (table.lookup k).isSome = true → (jsGetOrNull table k).isSome = true := by
    intro k hk
    rcases Option.isSome_iff_exists.mp hk with ⟨v, hv⟩
    have hmem : (k, v) ∈ table := lookup_mem hv
    have hne : v ≠ "" := htruthy (k, v) hmem
    simp [jsGetOrNull, hv, hne]
  cases h1 : (table.lookup p).isSome with
  | true =>
    simp only [findRemappedPath, h1, if_true]
    exact hjs p h1
  | false =>
    rcases hhit with hc1 | ⟨d, hd, hc2⟩ | hc3
    · rw [h1] at hc1
      cases hc1
    · simp only [findRemappedPath, h1, Bool.false_eq_true, if_false, hd, hc2, if_true]
      exact hjs d hc2
    · cases hdec : decodeURIComponent p with
      | none =>
        simp only [findRemappedPath, h1, Bool.false_eq_true, if_false, hdec, hc3, if_true]
        exact hjs _ hc3
      | some d' =>
        cases h2 : (table.lookup d').isSome with
        | true =>
          simp only [findRemappedPath, h1, Bool.false_eq_true, if_false, hdec, h2, if_true]
          exact hjs d' h2
        | false =>
          simp only [findRemappedPath, h1, h2, Bool.false_eq_true, if_false, hdec, hc3,
            if_true]
          exact hjs _ hc3

/-- C7 witness: with key `a%20b.png` stored, a lookup requested with
`a b.png` succeeds (through the percent-encoded fallback). -/
theorem C7_lookup_tolerates_encodings_witness :
    (findRemappedPath [("a%20b.png", "Maps/slug/a b.png")] "a b.png").isSome = true :=
  C7_lookup_tolerates_encodings [("a%20b.png", "Maps/slug/a b.png")]
    (by decide) "a b.png" (Or.inr (Or.inr (by decide)))

/-- C8: for an empty file list, `process` resolves immediately to the empty
Outcome list; the trace holds no collaborator call at all (no existence
check, no fetch, no write) — only the final `onComplete([])`. -/
theorem C8_empty_bundle (env : Collaborators)
    (remap : Option (List (String × String))) (concurrency : Nat)
    (sched : List Action) :
    processRun env [] remap concurrency sched = some ([], [DMEvent.onComplete []]) :=
  processRun_no_workers env [] remap concurrency sched
    (by simp [initState, buildQueue])

/-- C9: a file with no entry in the remap table (or when no table is
supplied — then the hypothesis holds vacuously for every table) keeps its
original path as destination: every existence check and every storage write
issued for it targets exactly the original path. -/
theorem C9_missing_entry_uses_original_path (env : Collaborators)
    (remap : Option (List (String × String))) (files : List DLCFile)
    (concurrency : Nat) (sched : List Action) (p : String)
    (hmiss : ∀ t, remap = some t → t.lookup p = none) :
    (∀ d, DMEvent.fileExistsCall p d ∈
      (runSched env (initState files remap concurrency) sched).events → d = p) ∧
    (∀ d, DMEvent.uploadFileCall p d ∈
      (runSched env (initState files remap concurrency) sched).events → d = p) := by
  have hrl : remapLookup remap p = p := by
    cases remap with
    | none => rfl
    | some t => simp [remapLookup, hmiss t rfl]
  have hInv := inv_runSched env remap files sched (inv_initState env remap files concurrency)
  constructor
  · intro d hd
    have h := hInv.events_ok _ hd
    exact h.trans hrl
  · intro d hd
    have h := hInv.events_ok _ hd
    exact h.1.trans hrl

/-- C9 witness: a remap table with an unrelated entry leaves `a.png` at its
original destination in the collaborator calls of a concrete run. -/
theorem C9_missing_entry_uses_original_path_witness :
    (∀ d, DMEvent.fileExistsCall "a.png" d ∈
      (runSched envAllOk (initState [fileA] (some [("zz.png", "Maps/zz.png")]) 1)
        (List.replicate 4 (Action.work 0))).events → d = "a.png") ∧
    (∀ d, DMEvent.uploadFileCall "a.png" d ∈
      (runSched envAllOk (initState [fileA] (some [("zz.png", "Maps/zz.png")]) 1)
        (List.replicate 4 (Action.work 0))).events → d = "a.png") :=
  C9_missing_entry_uses_original_path envAllOk (some [("zz.png", "Maps/zz.png")])
    [fileA] 1 (List.replicate 4 (Action.work 0)) "a.png"
    (fun t ht => by cases ht; decide)

/-- C10: `onFileComplete` fires exactly for files that actually went through
the fetch/upload path — per path, the number of `onFileComplete` callbacks
equals the number of API fetches issued — always with a terminal status; a
file skipped because its destination already exists gets a `completed`
Outcome recorded but no `onFileComplete` (and no fetch at all). -/
theorem C10_onFileComplete_matches_fetches (env : Collaborators)
    (remap : Option (List (String × String))) (files : List DLCFile)
    (concurrency : Nat) (sched : List Action)
    (hc : 1 ≤ concurrency) (hnab : Action.abortCall ∉ sched)
    (hdone : allDone (runSched env (initState files remap concurrency) sched) = true) :
    ∃ res evs, processRun env files remap concurrency sched = some (res, evs) ∧
      (∀ p, evs.countP (isFileCompleteFor p) = evs.countP (isFetchFor p)) ∧
      (∀ p st, DMEvent.onFileComplete p st ∈ evs →
        st = DownloadStatus.completed ∨ st = DownloadStatus.error) ∧
      (∀ p, env.fileExists (remapLookup remap p) = true →
        evs.countP (isFileCompleteFor p) = 0) ∧
      (∀ g ∈ files, env.fileExists (remapLookup remap g.path) = true →
        ∃ r ∈ res, r.file = g ∧ r.status = DownloadStatus.completed) := by
  have hspec := run_complete_spec env remap files concurrency sched hc hnab hdone
  have hpf : (runSched env (initState files remap concurrency) sched).workers.flatMap
      wFetchPaths = [] := flatMap_all_done wFetchPaths rfl _ hdone
  have hbal : ∀ p,
      (runSched env (initState files remap concurrency) sched).events.countP
        (isFileCompleteFor p) =
      (runSched env (initState files remap concurrency) sched).events.countP
        (isFetchFor p) := by
    intro p
    have h := hspec.1.fetch_balance p
    rw [hpf] at h
    simp only [List.countP_nil] at h
    omega
  refine ⟨(runSched env (initState files remap concurrency) sched).results,
    (runSched env (initState files remap concurrency) sched).events ++
      [DMEvent.onComplete (runSched env (initState files remap concurrency) sched).results],
    ?_, ?_, ?_, ?_, ?_⟩
  · simp [processRun, hdone]
  · intro p
    rw [List.countP_append, List.countP_append, hbal p]
    simp [isFileCompleteFor, isFetchFor]
  · intro p st hmem
    rcases List.mem_append.mp hmem with hold | hnew
    · exact hspec.1.events_ok _ hold
    · simp only [List.mem_singleton] at hnew
      cases hnew
  · intro p hex
    rw [List.countP_append, hbal p,
      (no_transfer_events_when_exists (n := files.length)
        hspec.1.events_ok p hex).1]
    simp [isFileCompleteFor]
  · intro g hg hex
    have hmem : g ∈ (runSched env (initState files remap concurrency) sched).results.map
        (fun r => r.file) := hspec.2.2.2.mem_iff.mpr hg
    rcases List.mem_map.mp hmem with ⟨r, hr, hrg⟩
    have hpath : r.file.path = g.path := by rw [hrg]
    exact ⟨r, hr, hrg,
      (resultOK_exists (hspec.1.results_ok r hr) hpath hex).1⟩

set_option maxRecDepth 8000 in
/-- C10 witness: with `a.png` already materialized, the concrete run fires
`onFileComplete` only for the fetched file `b.png`. -/
theorem C10_onFileComplete_matches_fetches_witness :
    ∃ res evs,
      processRun envSkipA [fileA, fileB] none 1
        (List.replicate 8 (Action.work 0)) = some (res, evs) ∧
      (∀ p, evs.countP (isFileCompleteFor p) = evs.countP (isFetchFor p)) ∧
      (∀ p st, DMEvent.onFileComplete p st ∈ evs →
        st = DownloadStatus.completed ∨ st = DownloadStatus.error) ∧
      (∀ p, envSkipA.fileExists (remapLookup none p) = true →
        evs.countP (isFileCompleteFor p) = 0) ∧
      (∀ g ∈ [fileA, fileB], envSkipA.fileExists (remapLookup none g.path) = true →
        ∃ r ∈ res, r.file = g ∧ r.status = DownloadStatus.completed) :=
  C10_onFileComplete_matches_fetches envSkipA none [fileA, fileB] 1
    (List.replicate 8 (Action.work 0)) (by decide) (by decide) (by decide)

end DLC

